import Mathlib

/-!
Verification of the claude-ipc text protocol codec and exchange coordinator.

The source is TypeScript; we shallowly embed the relevant functions over
`List Char` (written `LC`).  JavaScript strings become `LC`, `split("\n")`
becomes `splitLines`, `trim()` becomes `trimChars`, and the header regular
expression of `parseProtocolMessage` is hand-compiled into `parseHeader`
(the regex is deterministic: every quantified class is disjoint from the
literal that follows it, so greedy matching needs no backtracking).

JavaScript's whitespace class is modelled by the ASCII whitespace
characters (space, tab, LF, CR, VT, FF); exotic Unicode whitespace is not
modelled.  `String.prototype.toLowerCase`/`toUpperCase` are modelled by
`Char.toLower`/`Char.toUpper`, which agree with JavaScript on ASCII.
-/

/-- Characters of a JavaScript string. -/
abbrev LC := List Char

/-- ASCII approximation of the JavaScript whitespace class `\s`:
space, tab, LF, VT, FF, CR (code points 32, 9, 10, 11, 12, 13). -/
def isWsChar (c : Char) : Bool :=
  c.toNat = 32 || c.toNat = 9 || c.toNat = 10 || c.toNat = 11
    || c.toNat = 12 || c.toNat = 13

/-- `String.prototype.trim`: drop whitespace from both ends. -/
def trimChars (s : LC) : LC :=
  ((s.dropWhile isWsChar).reverse.dropWhile isWsChar).reverse

/-- `text.split("\n")`: split on newline; never returns `[]`
(JavaScript `"".split("\n") = [""]`). -/
def splitLines : LC → List LC
  | [] => [[]]
  | c :: rest =>
    if c = '\n' then [] :: splitLines rest
    else
      match splitLines rest with
      | [] => [[c]]
      | l :: ls => (c :: l) :: ls

/-- `lines.join("\n")`. -/
def joinLines : List LC → LC
  | [] => []
  | [l] => l
  | l :: ls => l ++ '\n' :: joinLines ls

/-- If `p` is a prefix of `s`, return the rest of `s`. -/
def stripPre (p s : LC) : Option LC :=
  match p, s with
  | [], s => some s
  | _ :: _, [] => none
  | a :: p, b :: s => if a = b then stripPre p s else none

/-- `s.startsWith(p)`. -/
def listStartsWith (p s : LC) : Bool :=
  (stripPre p s).isSome

/-- `s.includes(pat)`: substring occurrence. -/
def containsSeq (pat : LC) : LC → Bool
  | [] => pat.isEmpty
  | c :: rest => (stripPre pat (c :: rest)).isSome || containsSeq pat rest

/-- `s.replace(/\s+/g, "_")`: each maximal whitespace run becomes one
underscore.  The flag records whether we are inside a whitespace run. -/
def wsToU : Bool → LC → LC
  | _, [] => []
  | prevWs, c :: rest =>
    if isWsChar c then
      if prevWs then wsToU true rest else '_' :: wsToU true rest
    else c :: wsToU false rest

/-- `line.indexOf(": ")`: position of the first colon-space occurrence. -/
def findColonSpace : LC → Option Nat
  | [] => none
  | [_] => none
  | c :: d :: rest =>
    if c = ':' && d = ' ' then some 0
    else (findColonSpace (d :: rest)).map (· + 1)

/-- `v.split(", ")` with an accumulator for the current piece (reversed). -/
def splitCSgo : LC → LC → List LC
  | [], acc => [acc.reverse]
  | [c], acc => [(c :: acc).reverse]
  | c :: d :: rest, acc =>
    if c = ',' && d = ' ' then acc.reverse :: splitCSgo rest []
    else splitCSgo (d :: rest) (c :: acc)

/-- `v.split(", ")`. -/
def splitCommaSpace (v : LC) : List LC :=
  splitCSgo v []

/-- Uppercase letters and underscore: the `[A-Z_]` class of the header regex. -/
def isHeadChar (c : Char) : Bool :=
  (65 ≤ c.toNat && c.toNat ≤ 90) || c.toNat = 95

/-- The `\d` class. -/
def isDigitChar (c : Char) : Bool :=
  48 ≤ c.toNat && c.toNat ≤ 57

/-- `parseInt(s, 10)` on an all-digit string. -/
def digitsToNat (ds : LC) : Nat :=
  ds.foldl (fun n c => 10 * n + (c.toNat - 48)) 0

/-- Decimal rendering of a natural number (JavaScript template literal
`${n}` for a non-negative integer). -/
def natToChars (n : Nat) : LC :=
  if n = 0 then ['0']
  else ((Nat.digits 10 n).map (fun d => Char.ofNat (48 + d))).reverse

/-- The body-key normalisation of `parseProtocolMessage`:
`label.toLowerCase().replace(/\s+/g, "_")`. -/
def keyOfChars (s : LC) : LC :=
  wsToU false (s.map Char.toLower)

/-- A JavaScript record built by repeated assignment: later bindings win. -/
def lookupB : List (LC × LC) → LC → Option LC
  | [], _ => none
  | (k, v) :: t, q =>
    match lookupB t q with
    | some w => some w
    | none => if q = k then some v else none

/-- The body loop of `parseProtocolMessage` (cli.ts): for each line after
the header, if `indexOf(": ") > 0` then bind
`key := slice(0, colonIdx).toLowerCase().replace(/\s+/g, "_")` to
`value := slice(colonIdx + 2)`. -/
def bodyPairs : List LC → List (LC × LC)
  | [] => []
  | l :: rest =>
    match findColonSpace l with
    | some i =>
      if 0 < i then (keyOfChars (l.take i), l.drop (i + 2)) :: bodyPairs rest
      else bodyPairs rest
    | none => bodyPairs rest

/-- The header regex of `parseProtocolMessage`:
`^\[PROTOCOL:([A-Z_]+)\] from ([^\s]+) at ([^\s]+)(?: seq=(\d+))?$`.
Returns the captured groups `(TYPE, from, timestamp, seq)`. -/
def parseHeader (line : LC) : Option (LC × LC × LC × Option Nat) :=
  match stripPre "[PROTOCOL:".toList line with
  | none => none
  | some r1 =>
    let t := r1.takeWhile isHeadChar
    if t.isEmpty then none
    else
      match stripPre "] from ".toList (r1.dropWhile isHeadChar) with
      | none => none
      | some r2 =>
        let f := r2.takeWhile (fun c => !isWsChar c)
        if f.isEmpty then none
        else
          match stripPre " at ".toList (r2.dropWhile (fun c => !isWsChar c)) with
          | none => none
          | some r3 =>
            let ts := r3.takeWhile (fun c => !isWsChar c)
            if ts.isEmpty then none
            else
              let r4 := r3.dropWhile (fun c => !isWsChar c)
              if r4.isEmpty then some (t, f, ts, none)
              else
                match stripPre " seq=".toList r4 with
                | none => none
                | some ds =>
                  if ds.isEmpty then none
                  else if ds.all isDigitChar then
                    some (t, f, ts, some (digitsToNat ds))
                  else none

/-- The five typed protocol message variants of ipc.ts (the
`ProtocolMessage` union), with runtime string fields. -/
inductive KMsg where
  | compaction (sender timestamp : LC) (seq : Option Nat)
      (summary : LC) (retainedKnowledge : List LC) (currentTaskState : LC)
  | statusUpdate (sender timestamp : LC) (seq : Option Nat)
      (status : LC) (currentTask progress : Option LC)
  | taskHandoff (sender timestamp : LC) (seq : Option Nat)
      (task priority context : LC)
  | errorNotice (sender timestamp : LC) (seq : Option Nat)
      (error : LC) (recoverable needsAssistance : Bool)
  | heartbeat (sender timestamp : LC) (seq : Option Nat)
      (status : LC) (currentTask : Option LC)
  deriving DecidableEq

/-- Result of `parseProtocolMessage`: one of the five typed variants, or
(default switch case) a base message carrying only header fields. -/
inductive PMsg where
  | known (m : KMsg)
  | base (type sender timestamp : LC) (seq : Option Nat)
  deriving DecidableEq

/-- The runtime `type` tag of a parsed message. -/
def msgType : PMsg → LC
  | .known (.compaction ..) => "context_compaction".toList
  | .known (.statusUpdate ..) => "status_update".toList
  | .known (.taskHandoff ..) => "task_handoff".toList
  | .known (.errorNotice ..) => "error_notice".toList
  | .known (.heartbeat ..) => "heartbeat".toList
  | .base t _ _ _ => t

/-- `body.<key> || default` for status-like fields: the default applies
when the key is missing or its value is the empty string (falsy). -/
def getNE (b : List (LC × LC)) (k : LC) (d : LC) : LC :=
  match lookupB b k with
  | some v => if v.isEmpty then d else v
  | none => d

/-- `body.<key> || ""` for free-text fields. -/
def getS (b : List (LC × LC)) (k : LC) : LC :=
  (lookupB b k).getD []

/-- `parseProtocolMessage` (cli.ts, protocol parsing utilities): trim,
split into lines, match the header regex on the first line, collect
`Key: value` body pairs, then build the typed message by a switch on the
lower-cased type token, defaulting missing fields. -/
def parseProtocolMessage (text : LC) : Option PMsg :=
  let lines := splitLines (trimChars text)
  match lines with
  | [] => none
  | h :: body =>
    match parseHeader h with
    | none => none
    | some (tUp, f, ts, sq) =>
      let t := tUp.map Char.toLower
      let b := bodyPairs body
      if t = "context_compaction".toList then
        some (.known (.compaction f ts sq (getS b "summary".toList)
          (match lookupB b "retained".toList with
           | some v => if v.isEmpty then [] else splitCommaSpace v
           | none => [])
          (getS b "current_task".toList)))
      else if t = "status_update".toList then
        some (.known (.statusUpdate f ts sq (getNE b "status".toList "idle".toList)
          (lookupB b "task".toList) (lookupB b "progress".toList)))
      else if t = "task_handoff".toList then
        some (.known (.taskHandoff f ts sq (getS b "task".toList)
          (getNE b "priority".toList "medium".toList) (getS b "context".toList)))
      else if t = "error_notice".toList then
        some (.known (.errorNotice f ts sq (getS b "error".toList)
          (lookupB b "recoverable".toList = some "true".toList)
          (lookupB b "needs_assistance".toList = some "true".toList)))
      else if t = "heartbeat".toList then
        some (.known (.heartbeat f ts sq (getNE b "status".toList "alive".toList)
          (lookupB b "task".toList)))
      else
        some (.base t f ts sq)

/-- `isProtocolMessage` (cli.ts): `/^\[PROTOCOL:[A-Z_]+\]/.test(text.trim())`.
The regex is unanchored at the end: only the leading tag is checked. -/
def isProtocolMessage (text : LC) : Bool :=
  match stripPre "[PROTOCOL:".toList (trimChars text) with
  | none => false
  | some r =>
    match r.dropWhile isHeadChar with
    | ']' :: _ => !(r.takeWhile isHeadChar).isEmpty
    | _ => false

/-- Header line of `formatProtocolMessage` (ipc.ts):
`[PROTOCOL:${type.toUpperCase()}] from ${from} at ${timestamp}` plus
` seq=${seq}` when `seq` is defined. -/
def headerChars (tag f ts : LC) (sq : Option Nat) : LC :=
  "[PROTOCOL:".toList ++ tag.map Char.toUpper ++ "] from ".toList ++ f
    ++ " at ".toList ++ ts
    ++ (match sq with
        | some n => " seq=".toList ++ natToChars n
        | none => [])

/-- An optional body line: emitted only when the field is truthy
(present and non-empty), mirroring `if (m.currentTask) text += ...`. -/
def optLine (label : LC) (v : Option LC) : List LC :=
  match v with
  | some w => if w.isEmpty then [] else [label ++ w]
  | none => []

/-- `list.join(", ")` (JavaScript `Array.prototype.join` with separator
`", "`), used for the `Retained:` body line. -/
def joinSep : List LC → LC
  | [] => []
  | [e] => e
  | e :: rest => e ++ ", ".toList ++ joinSep rest

/-- The lines of `formatProtocolMessage` (ipc.ts): the header, then one
body line per populated field in the fixed per-type order. -/
def formatLines : KMsg → List LC
  | .compaction f ts sq summary retained cts =>
    headerChars "context_compaction".toList f ts sq
      :: ("Summary: ".toList ++ summary)
      :: ("Retained: ".toList ++ joinSep retained)
      :: [("Current task: ".toList ++ cts)]
  | .statusUpdate f ts sq st ct pr =>
    headerChars "status_update".toList f ts sq
      :: ("Status: ".toList ++ st)
      :: (optLine "Task: ".toList ct ++ optLine "Progress: ".toList pr)
  | .taskHandoff f ts sq task priority context =>
    headerChars "task_handoff".toList f ts sq
      :: ("Task: ".toList ++ task)
      :: ("Priority: ".toList ++ priority)
      :: [("Context: ".toList ++ context)]
  | .errorNotice f ts sq error recoverable needsAssistance =>
    headerChars "error_notice".toList f ts sq
      :: ("Error: ".toList ++ error)
      :: ("Recoverable: ".toList ++ (if recoverable then "true".toList else "false".toList))
      :: [("Needs assistance: ".toList ++ (if needsAssistance then "true".toList else "false".toList))]
  | .heartbeat f ts sq st ct =>
    headerChars "heartbeat".toList f ts sq
      :: ("Status: ".toList ++ st)
      :: optLine "Task: ".toList ct

/-- `formatProtocolMessage` (ipc.ts): the joined text block.  The source
builds the same string by appending `"\n<Label>: <value>"` chunks to the
header. -/
def formatProtocolMessage (m : KMsg) : LC :=
  joinLines (formatLines m)

/-! ## Multi-message extraction (cli.ts `extractProtocolMessages`) -/

/-- Scanner state of `extractProtocolMessages`: accumulated messages, the
lines of the block being collected, and whether a block is open. -/
structure ExtState where
  messages : List PMsg
  current : List LC
  inMessage : Bool
  deriving DecidableEq

/-- One line of the `extractProtocolMessages` scan loop (cli.ts):
a line starting with `[PROTOCOL:` flushes any open block and starts a new
one; inside a block, a non-blank line containing `": "` is collected, a
blank line flushes the block, and any other line is skipped. -/
def extractStep (st : ExtState) (line : LC) : ExtState :=
  if listStartsWith "[PROTOCOL:".toList line then
    { messages :=
        if st.inMessage && !st.current.isEmpty then
          st.messages ++ (parseProtocolMessage (joinLines st.current)).toList
        else st.messages,
      current := [line], inMessage := true }
  else if st.inMessage then
    if !(trimChars line).isEmpty && containsSeq ": ".toList line then
      { st with current := st.current ++ [line] }
    else if (trimChars line).isEmpty then
      { messages := st.messages ++ (parseProtocolMessage (joinLines st.current)).toList,
        current := [], inMessage := false }
    else st
  else st

/-- `extractProtocolMessages` (cli.ts): scan all lines, then flush a
still-open final block. -/
def extractProtocolMessages (text : LC) : List PMsg :=
  let fin := (splitLines text).foldl extractStep ⟨[], [], false⟩
  if fin.inMessage && !fin.current.isEmpty then
    fin.messages ++ (parseProtocolMessage (joinLines fin.current)).toList
  else fin.messages

/-! ## Exchange Coordinator (ipc.ts `ClaudeIPC`)

The external tmux driver is modelled by an environment: a session
directory, the sequence of pane captures (indexed by how many captures
have happened), and whether the transmit primitive throws.  Each modelled
method also returns the trace of external primitive invocations it made.
Time is modelled by counting poll iterations: each iteration of the
`sendAndWait` loop costs exactly `pollInterval` (the sleep), everything
else is instantaneous, so the `while (Date.now() - startTime < timeout)`
loop runs `⌈timeout / pollInterval⌉` times. -/

/-- External tmux primitives invoked by the coordinator. -/
inductive Prim where
  | hasSession (t : LC)
  | capturePane (t : LC)
  | sendKeys (t : LC)
  | sendSubmit (t : LC)
  deriving DecidableEq

/-- The external world: session existence, the capture returned by the
`k`-th `capture-pane` call, and transmit behaviour. -/
structure Env where
  hasSession : LC → Bool
  capture : Nat → LC
  sendOk : Bool
  sendErrMsg : LC

/-- `Session '<target>' not found` (ipc.ts `send` / `sendAndWait`). -/
def notFoundMsg (target : LC) : LC :=
  "Session \x27".toList ++ target ++ "\x27 not found".toList

/-- `Timeout waiting for response from <target>` (ipc.ts `sendAndWait`). -/
def timeoutMsg (target : LC) : LC :=
  "Timeout waiting for response from ".toList ++ target

/-- The composing-marker test of the polling loop:
`currentContent.includes("Wrangling") || currentContent.includes("Thinking")`. -/
def hasComposingMarker (s : LC) : Bool :=
  containsSeq "Wrangling".toList s || containsSeq "Thinking".toList s

/-- The inner diff of `extractNewContent` (ipc.ts): the response-line
filter loop.  Before the response starts, blank lines are skipped; lines
starting with `>` are always skipped; any other line starts/continues the
response. -/
def keepResponse : Bool → List LC → List LC
  | _, [] => []
  | inR, l :: rest =>
    if !inR && (trimChars l).isEmpty then keepResponse inR rest
    else if listStartsWith ">".toList l then keepResponse inR rest
    else l :: keepResponse true rest

/-- `extractNewContent` (ipc.ts): lines of the later capture absent from
the set of baseline lines, cleaned by `keepResponse`, joined and trimmed;
`null` when no response lines remain. -/
def extractNewContent (before after : LC) : Option LC :=
  let lines := splitLines after
  let beforeLines := splitLines before
  let newLines := lines.filter (fun l => !(beforeLines.contains l))
  let responseLines := keepResponse false newLines
  if responseLines.isEmpty then none
  else some (trimChars (joinLines responseLines))

/-- Modelled from the spec's words (diff/extraction algorithm, spec
section 4.2), for comparison with `extractNewContent`: keep the later
capture's lines absent from the set of baseline lines in their original
order, drop every prompt-echo line (starting with `>`), drop leading
blank lines, join and trim; null when nothing remains. -/
def specExtractNewContent (before after : LC) : Option LC :=
  let newLines := (splitLines after).filter (fun l => !((splitLines before).contains l))
  let kept := (newLines.filter (fun l => !listStartsWith ">".toList l)).dropWhile
      (fun l => (trimChars l).isEmpty)
  if kept.isEmpty then none else some (trimChars (joinLines kept))

/-- Outcome of one polling iteration. -/
inductive StepRes where
  | done (r : LC)
  | again (last : LC)
  deriving DecidableEq

/-- One iteration of the `sendAndWait` polling loop (ipc.ts): on a changed
capture that carries no composing marker, a truthy extracted diff ends the
loop; everything else re-arms with `lastContent := currentContent`. -/
def pollStep (initial last cur : LC) : StepRes :=
  if cur ≠ last then
    if hasComposingMarker cur then .again cur
    else
      match extractNewContent initial cur with
      | some r => if r.isEmpty then .again cur else .done r
      | none => .again cur
  else .again cur

/-- The polling loop with `fuel` remaining iterations; `k` indexes the
next capture.  Each iteration re-checks session existence (via `read`)
and captures the pane. -/
def pollLoop (env : Env) (t initial : LC) :
    LC → Nat → Nat → Option LC × List Prim
  | _, _, 0 => (none, [])
  | last, k, fuel + 1 =>
    let cur := if env.hasSession t then env.capture k else []
    let tr := if env.hasSession t then [Prim.hasSession t, Prim.capturePane t]
              else [Prim.hasSession t]
    match pollStep initial last cur with
    | .done r => (some r, tr)
    | .again nl =>
      let rest := pollLoop env t initial nl (k + 1) fuel
      (rest.1, tr ++ rest.2)

/-- Number of iterations of the `sendAndWait` polling loop:
`⌈timeout / pollInterval⌉` under the timing model above. -/
def numPolls (timeout pollInterval : Nat) : Nat :=
  (timeout + pollInterval - 1) / pollInterval

/-- `sendAndWait` (ipc.ts): check session existence, capture the
baseline (`read` re-checks existence), send the message text and the
submit keystroke (`send` re-checks existence), then poll until a response
is extracted or the timeout elapses.  Returns the result together with
the trace of external primitive invocations. -/
def sendAndWait (env : Env) (target : LC) (timeout pollInterval : Nat) :
    Except LC LC × List Prim :=
  if env.hasSession target = false then
    (.error (notFoundMsg target), [.hasSession target])
  else
    let initial := env.capture 0
    let tr0 := [Prim.hasSession target, Prim.hasSession target, Prim.capturePane target]
    if env.sendOk = false then
      (.error env.sendErrMsg, tr0 ++ [.hasSession target, .sendKeys target])
    else
      let tr1 := tr0 ++ [Prim.hasSession target, .sendKeys target, .sendSubmit target]
      match pollLoop env target initial initial 1 (numPolls timeout pollInterval) with
      | (some r, tr) => (.ok r, tr1 ++ tr)
      | (none, tr) => (.error (timeoutMsg target), tr1 ++ tr)

/-! ## Sequence counter (ipc.ts `sequenceNumber` / `nextSeq`) -/

/-- `private sequenceNumber = 0`: the counter value at construction. -/
def initialSeqCounter : Nat := 0

/-- `nextSeq` (ipc.ts): `return ++this.sequenceNumber` — the state
transition and the returned value. -/
def nextSeq (s : Nat) : Nat × Nat :=
  (s + 1, s + 1)

/-- The seq values attached to `k` successive protocol sends starting
from counter state `s` (each of `notifyCompaction`, `notifyStatus`,
`handoffTask`, `notifyError`, `sendHeartbeat` calls `nextSeq` once). -/
def seqTrace : Nat → Nat → List Nat
  | _, 0 => []
  | s, k + 1 => (nextSeq s).2 :: seqTrace (nextSeq s).1 k

/-- Field predicates for well-formed (round-trippable) messages. -/
def noNl (v : LC) : Bool :=
  v.all (fun c => !(c = '\n'))

/-- No whitespace character at all (for `from` and `timestamp`). -/
def idOk (v : LC) : Bool :=
  !v.isEmpty && v.all (fun c => !isWsChar c)

/-- The last character, if any, is not whitespace (so a trailing `trim`
of the rendered text cannot eat into the value). -/
def endsOk (v : LC) : Bool :=
  match v.reverse with
  | [] => true
  | c :: _ => !isWsChar c

/-- A populated text field value that survives the wire format:
non-empty, no newline, no trailing whitespace. -/
def fieldOk (v : LC) : Bool :=
  !v.isEmpty && noNl v && endsOk v

/-- An optional text field: absent, or present, non-empty (truthy) and
wire-safe. -/
def optOk (v : Option LC) : Bool :=
  match v with
  | none => true
  | some w => fieldOk w

/-- A well-formed constructible message: the sender and timestamp are
non-empty and whitespace-free (the header grammar demands `[^\s]+`),
enum-typed fields hold a value of their enumeration, text fields are
populated (non-empty, no newline, no trailing whitespace), optional
fields are absent or truthy, and list entries are populated and contain
no `", "` separator. -/
def wellFormedMsg : KMsg → Bool
  | .compaction f ts _ summary ret cts =>
    idOk f && idOk ts && fieldOk summary
      && ret.all (fun e => fieldOk e && !containsSeq ", ".toList e)
      && fieldOk cts
  | .statusUpdate f ts _ st ct pr =>
    idOk f && idOk ts
      && (st == "idle".toList || st == "working".toList
          || st == "blocked".toList || st == "completed".toList)
      && optOk ct && optOk pr
  | .taskHandoff f ts _ task pr ctx =>
    idOk f && idOk ts && fieldOk task
      && (pr == "low".toList || pr == "medium".toList || pr == "high".toList)
      && fieldOk ctx
  | .errorNotice f ts _ err _ _ =>
    idOk f && idOk ts && fieldOk err
  | .heartbeat f ts _ st ct =>
    idOk f && idOk ts
      && (st == "alive".toList || st == "busy".toList || st == "idle".toList)
      && optOk ct

deriving instance DecidableEq for Except

/-! ## Utility lemmas -/

theorem stripPre_pre (p r : LC) : stripPre p (p ++ r) = some r := by
  induction p with
  | nil => rfl
  | cons a p ih => simpa [stripPre] using ih

theorem stripPre_eq_some {p s r : LC} (h : stripPre p s = some r) : s = p ++ r := by
  induction p generalizing s with
  | nil => simp [stripPre] at h; simp [h]
  | cons a p ih =>
    cases s with
    | nil => exact absurd h (by simp [stripPre])
    | cons b s =>
      simp only [stripPre] at h
      by_cases hab : a = b
      · rw [if_pos hab] at h
        subst hab
        rw [List.cons_append, ih h]
      · rw [if_neg hab] at h
        exact absurd h (by simp)

theorem takeWhile_all {p : Char → Bool} {a : LC} (h : ∀ c ∈ a, p c = true) :
    a.takeWhile p = a := by
  induction a with
  | nil => rfl
  | cons c rest ih =>
    have hr := ih fun x hx => h x (List.mem_cons_of_mem _ hx)
    simp [List.takeWhile_cons, h c (by simp), hr]

theorem dropWhile_all {p : Char → Bool} {a : LC} (h : ∀ c ∈ a, p c = true) :
    a.dropWhile p = [] := by
  induction a with
  | nil => rfl
  | cons c rest ih =>
    have hr := ih fun x hx => h x (List.mem_cons_of_mem _ hx)
    simp [List.dropWhile_cons, h c (by simp), hr]

theorem takeWhile_app_neg {p : Char → Bool} {a : LC} {c : Char} {b : LC}
    (ha : ∀ x ∈ a, p x = true) (hc : p c = false) :
    ((a ++ c :: b).takeWhile p) = a := by
  induction a with
  | nil => simp [List.takeWhile_cons, hc]
  | cons d rest ih =>
    have hr := ih fun x hx => ha x (List.mem_cons_of_mem _ hx)
    simp [List.takeWhile_cons, ha d (by simp), hr]

theorem dropWhile_app_neg {p : Char → Bool} {a : LC} {c : Char} {b : LC}
    (ha : ∀ x ∈ a, p x = true) (hc : p c = false) :
    ((a ++ c :: b).dropWhile p) = c :: b := by
  induction a with
  | nil => simp [List.dropWhile_cons, hc]
  | cons d rest ih =>
    have hr := ih fun x hx => ha x (List.mem_cons_of_mem _ hx)
    simp [List.dropWhile_cons, ha d (by simp), hr]

theorem splitLines_ne_nil (s : LC) : splitLines s ≠ [] := by
  cases s with
  | nil => simp [splitLines]
  | cons c rest =>
    by_cases hc : c = '\n'
    · simp [splitLines, hc]
    · simp only [splitLines, if_neg hc]
      cases splitLines rest <;> simp

theorem splitLines_no_nl {s : LC} (h : ∀ c ∈ s, c ≠ '\n') : splitLines s = [s] := by
  induction s with
  | nil => rfl
  | cons c rest ih =>
    have hc : c ≠ '\n' := h c (by simp)
    have hr : splitLines rest = [rest] := ih fun x hx => h x (List.mem_cons_of_mem _ hx)
    simp [splitLines, hc, hr]

theorem splitLines_append {a : LC} (b : LC) (ha : ∀ c ∈ a, c ≠ '\n') :
    splitLines (a ++ '\n' :: b) = a :: splitLines b := by
  induction a with
  | nil => simp [splitLines]
  | cons c rest ih =>
    have hc : c ≠ '\n' := ha c (by simp)
    have hr := ih fun x hx => ha x (List.mem_cons_of_mem _ hx)
    simp [splitLines, hc, hr]

theorem splitLines_join {ls : List LC} (h0 : ls ≠ [])
    (h : ∀ l ∈ ls, ∀ c ∈ l, c ≠ '\n') : splitLines (joinLines ls) = ls := by
  induction ls with
  | nil => exact absurd rfl h0
  | cons l rest ih =>
    cases rest with
    | nil => simpa [joinLines] using splitLines_no_nl (h l (by simp))
    | cons l2 rest2 =>
      have hj : joinLines (l :: l2 :: rest2) = l ++ '\n' :: joinLines (l2 :: rest2) := rfl
      rw [hj, splitLines_append _ (h l (by simp))]
      rw [ih (by simp) fun x hx => h x (List.mem_cons_of_mem _ hx)]

theorem joinLines_splitLines (s : LC) : joinLines (splitLines s) = s := by
  induction s with
  | nil => rfl
  | cons c rest ih =>
    by_cases hc : c = '\n'
    · subst hc
      simp only [splitLines, if_pos rfl]
      cases hsp : splitLines rest with
      | nil => exact absurd hsp (splitLines_ne_nil rest)
      | cons a as =>
        rw [hsp] at ih
        simpa [joinLines] using ih
    · simp only [splitLines, if_neg hc]
      cases hsp : splitLines rest with
      | nil => exact absurd hsp (splitLines_ne_nil rest)
      | cons a as =>
        rw [hsp] at ih
        cases as with
        | nil => simpa [joinLines] using ih
        | cons b bs => simpa [joinLines] using ih

theorem dropWhile_cons_neg {p : Char → Bool} {c : Char} {s : LC} (h : p c = false) :
    ((c :: s).dropWhile p) = c :: s := by
  simp [List.dropWhile_cons, h]

theorem trim_eq_self {s : LC}
    (h1 : ∀ c, s.head? = some c → isWsChar c = false)
    (h2 : ∀ c, s.getLast? = some c → isWsChar c = false) :
    trimChars s = s := by
  cases s with
  | nil => rfl
  | cons c rest =>
    have hd : ((c :: rest).dropWhile isWsChar) = c :: rest :=
      dropWhile_cons_neg (h1 c rfl)
    unfold trimChars
    rw [hd]
    cases hrev : (c :: rest).reverse with
    | nil => simp at hrev
    | cons d t =>
      have hdlast : (c :: rest).getLast? = some d := by
        rw [← List.head?_reverse, hrev]; rfl
      rw [dropWhile_cons_neg (h2 d hdlast), ← hrev, List.reverse_reverse]

theorem char48_toNat {d : Nat} (h : d < 10) : (Char.ofNat (48 + d)).toNat = 48 + d := by
  interval_cases d <;> decide

theorem char48_isDigit {d : Nat} (h : d < 10) :
    isDigitChar (Char.ofNat (48 + d)) = true := by
  interval_cases d <;> decide

theorem char48_not_ws {d : Nat} (h : d < 10) :
    isWsChar (Char.ofNat (48 + d)) = false := by
  interval_cases d <;> decide

theorem char48_ne_nl {d : Nat} (h : d < 10) : Char.ofNat (48 + d) ≠ '\n' := by
  interval_cases d <;> decide

theorem natToChars_ne_nil (n : Nat) : natToChars n ≠ [] := by
  unfold natToChars
  by_cases h0 : n = 0
  · simp [h0]
  · simp only [if_neg h0]
    have hne : Nat.digits 10 n ≠ [] := Nat.digits_ne_nil_iff_ne_zero.mpr h0
    intro hcon
    simp at hcon
    exact hne hcon

theorem natToChars_all_digit {n : Nat} : ∀ c ∈ natToChars n, isDigitChar c = true := by
  intro c hc
  unfold natToChars at hc
  by_cases h0 : n = 0
  · simp [h0] at hc
    subst hc; decide
  · simp only [if_neg h0, List.mem_reverse, List.mem_map] at hc
    obtain ⟨d, hd, rfl⟩ := hc
    exact char48_isDigit (Nat.digits_lt_base (by norm_num) hd)

theorem natToChars_not_ws {n : Nat} : ∀ c ∈ natToChars n, isWsChar c = false := by
  intro c hc
  unfold natToChars at hc
  by_cases h0 : n = 0
  · simp [h0] at hc
    subst hc; decide
  · simp only [if_neg h0, List.mem_reverse, List.mem_map] at hc
    obtain ⟨d, hd, rfl⟩ := hc
    exact char48_not_ws (Nat.digits_lt_base (by norm_num) hd)

theorem digitsToNat_natToChars (n : Nat) : digitsToNat (natToChars n) = n := by
  by_cases h0 : n = 0
  · subst h0; decide
  · unfold natToChars digitsToNat
    rw [if_neg h0, List.foldl_reverse]
    have key : ∀ l : List Nat, (∀ d ∈ l, d < 10) →
        ((l.map (fun d => Char.ofNat (48 + d))).foldr
          (fun x y => 10 * y + (x.toNat - 48)) 0) = Nat.ofDigits 10 l := by
      intro l hl
      induction l with
      | nil => simp [Nat.ofDigits]
      | cons d rest ih =>
        have hd : d < 10 := hl d (by simp)
        have hr := ih fun x hx => hl x (List.mem_cons_of_mem _ hx)
        simp only [List.map_cons, List.foldr_cons, hr, Nat.ofDigits_cons,
          char48_toNat hd]
        omega
    rw [key _ fun d hd => Nat.digits_lt_base (by norm_num) hd,
      Nat.ofDigits_digits]

theorem isEmpty_false_of_ne_nil {a : LC} (h : a ≠ []) : a.isEmpty = false := by
  cases a with
  | nil => exact absurd rfl h
  | cons _ _ => rfl

theorem parseHeader_render {T f ts : LC} (sq : Option Nat)
    (hT0 : T ≠ []) (hT : ∀ c ∈ T, isHeadChar c = true)
    (hf0 : f ≠ []) (hf : ∀ c ∈ f, isWsChar c = false)
    (hts0 : ts ≠ []) (hts : ∀ c ∈ ts, isWsChar c = false) :
    parseHeader ("[PROTOCOL:".toList ++ T ++ "] from ".toList ++ f ++ " at ".toList
      ++ ts ++ (match sq with | some n => " seq=".toList ++ natToChars n | none => []))
      = some (T, f, ts, sq) := by
  have hfB : ∀ x ∈ f, (fun c => !isWsChar c) x = true := fun x hx => by
    simp [hf x hx]
  have htsB : ∀ x ∈ ts, (fun c => !isWsChar c) x = true := fun x hx => by
    simp [hts x hx]
  have lit1 : ∀ X : LC, "] from ".toList ++ X = ']' :: (" from ".toList ++ X) :=
    fun _ => rfl
  have lit2 : ∀ X : LC, " at ".toList ++ X = ' ' :: ("at ".toList ++ X) :=
    fun _ => rfl
  have e2 : ∀ X : LC, stripPre "] from ".toList (']' :: (" from ".toList ++ X)) = some X :=
    fun X => stripPre_pre "] from ".toList X
  have e3 : ∀ X : LC, stripPre " at ".toList (' ' :: ("at ".toList ++ X)) = some X :=
    fun X => stripPre_pre " at ".toList X
  have hbr : isHeadChar ']' = false := by decide
  have hsp : (fun c => !isWsChar c) ' ' = false := by decide
  cases sq with
  | none =>
    unfold parseHeader
    simp only [List.append_assoc, List.cons_append, List.append_nil, stripPre_pre, lit1, lit2,
      takeWhile_app_neg hT hbr, dropWhile_app_neg hT hbr, e2,
      isEmpty_false_of_ne_nil hT0,
      takeWhile_app_neg hfB hsp, dropWhile_app_neg hfB hsp, e3,
      isEmpty_false_of_ne_nil hf0,
      takeWhile_all htsB, dropWhile_all htsB,
      isEmpty_false_of_ne_nil hts0, List.isEmpty_nil,
      Bool.false_eq_true, if_false, if_true]
  | some n =>
    have lit3 : ∀ X : LC, " seq=".toList ++ X = ' ' :: ("seq=".toList ++ X) :=
      fun _ => rfl
    have e5 : ∀ X : LC, stripPre " seq=".toList (' ' :: ("seq=".toList ++ X)) = some X :=
      fun X => stripPre_pre " seq=".toList X
    have hds : (natToChars n).all isDigitChar = true :=
      List.all_eq_true.mpr fun c hc => natToChars_all_digit c hc
    unfold parseHeader
    simp only [List.append_assoc, List.cons_append, stripPre_pre, lit1, lit2, lit3,
      takeWhile_app_neg hT hbr, dropWhile_app_neg hT hbr, e2,
      isEmpty_false_of_ne_nil hT0,
      takeWhile_app_neg hfB hsp, dropWhile_app_neg hfB hsp, e3,
      isEmpty_false_of_ne_nil hf0,
      takeWhile_app_neg htsB hsp, dropWhile_app_neg htsB hsp, e5,
      isEmpty_false_of_ne_nil hts0,
      isEmpty_false_of_ne_nil (natToChars_ne_nil n), hds,
      List.isEmpty_cons, digitsToNat_natToChars,
      Bool.false_eq_true, if_false, if_true]

theorem containsSeq_app_self (a pat b : LC) : containsSeq pat (a ++ pat ++ b) = true := by
  induction a with
  | nil =>
    cases hp : pat ++ b with
    | nil =>
      have hpe : pat = [] := by
        cases pat with
        | nil => rfl
        | cons _ _ => simp at hp
      have hbe : b = [] := by
        subst hpe; simpa using hp
      subst hpe; subst hbe
      simp [containsSeq]
    | cons c rest =>
      rw [List.nil_append, hp]
      rw [show containsSeq pat (c :: rest) =
        ((stripPre pat (c :: rest)).isSome || containsSeq pat rest) from rfl]
      rw [← hp, stripPre_pre]
      simp
  | cons c a ih =>
    rw [show ((c :: a) ++ pat ++ b : LC) = c :: (a ++ pat ++ b) by simp]
    rw [show containsSeq pat (c :: (a ++ pat ++ b)) =
      ((stripPre pat (c :: (a ++ pat ++ b))).isSome || containsSeq pat (a ++ pat ++ b)) from rfl]
    rw [ih]
    simp

theorem findColonSpace_render {L : LC} (v : LC) (hL : ∀ c ∈ L, c ≠ ':') :
    findColonSpace (L ++ ':' :: ' ' :: v) = some L.length := by
  induction L with
  | nil => simp [findColonSpace]
  | cons c rest ih =>
    have hc : c ≠ ':' := hL c (by simp)
    have hr := ih fun x hx => hL x (List.mem_cons_of_mem _ hx)
    cases hrest : rest ++ ':' :: ' ' :: v with
    | nil => simp at hrest
    | cons d tail =>
      rw [List.cons_append, hrest]
      rw [show findColonSpace (c :: d :: tail) =
        (if c = ':' && d = ' ' then some 0
         else (findColonSpace (d :: tail)).map (· + 1)) from rfl]
      rw [← hrest, hr]
      simp [hc]


theorem splitCSgo_sepfree : ∀ (e acc : LC), containsSeq ", ".toList e = false →
    splitCSgo e acc = [acc.reverse ++ e]
  | [], acc, _ => by simp [splitCSgo]
  | [c], acc, _ => by simp [splitCSgo]
  | c :: d :: tail, acc, he => by
    rw [show containsSeq ", ".toList (c :: d :: tail) =
      ((stripPre ", ".toList (c :: d :: tail)).isSome
        || containsSeq ", ".toList (d :: tail)) from rfl] at he
    simp only [Bool.or_eq_false_iff] at he
    have hsep : (c = ',' && d = ' ') = false := by
      by_cases h1 : c = ','
      · by_cases hd : d = ' '
        · subst h1; subst hd
          have hs : stripPre ", ".toList (',' :: ' ' :: tail) = some tail := rfl
          rw [hs] at he
          simp at he
        · simp [hd]
      · simp [h1]
    rw [show splitCSgo (c :: d :: tail) acc =
      (if c = ',' && d = ' ' then acc.reverse :: splitCSgo tail []
       else splitCSgo (d :: tail) (c :: acc)) from rfl, hsep]
    simp only [Bool.false_eq_true, if_false]
    rw [splitCSgo_sepfree (d :: tail) (c :: acc) he.2]
    simp

theorem splitCSgo_app : ∀ (e : LC) (X acc : LC), containsSeq ", ".toList e = false →
    splitCSgo (e ++ ',' :: ' ' :: X) acc = (acc.reverse ++ e) :: splitCSgo X []
  | [], X, acc, _ => by simp [splitCSgo]
  | [c], X, acc, _ => by
    have hsep : (c = ',' && (',' = ' ')) = false := by simp
    rw [show (([c] ++ ',' :: ' ' :: X : LC)) = c :: ',' :: ' ' :: X by simp]
    rw [show splitCSgo (c :: ',' :: ' ' :: X) acc =
      (if c = ',' && (',' = ' ') then acc.reverse :: splitCSgo (' ' :: X) []
       else splitCSgo (',' :: ' ' :: X) (c :: acc)) from rfl, hsep]
    simp only [Bool.false_eq_true, if_false]
    rw [show splitCSgo (',' :: ' ' :: X) (c :: acc) =
      ((c :: acc).reverse :: splitCSgo X []) by simp [splitCSgo]]
    simp
  | c :: d :: tail, X, acc, he => by
    rw [show containsSeq ", ".toList (c :: d :: tail) =
      ((stripPre ", ".toList (c :: d :: tail)).isSome
        || containsSeq ", ".toList (d :: tail)) from rfl] at he
    simp only [Bool.or_eq_false_iff] at he
    have hsep : (c = ',' && d = ' ') = false := by
      by_cases h1 : c = ','
      · by_cases hd : d = ' '
        · subst h1; subst hd
          have hs : stripPre ", ".toList (',' :: ' ' :: tail) = some tail := rfl
          rw [hs] at he
          simp at he
        · simp [hd]
      · simp [h1]
    rw [show ((c :: d :: tail) ++ ',' :: ' ' :: X : LC)
      = c :: ((d :: tail) ++ ',' :: ' ' :: X) by simp]
    rw [show ((d :: tail) ++ ',' :: ' ' :: X : LC)
      = d :: (tail ++ ',' :: ' ' :: X) by simp]
    rw [show splitCSgo (c :: d :: (tail ++ ',' :: ' ' :: X)) acc =
      (if c = ',' && d = ' ' then acc.reverse :: splitCSgo (tail ++ ',' :: ' ' :: X) []
       else splitCSgo (d :: (tail ++ ',' :: ' ' :: X)) (c :: acc)) from rfl, hsep]
    simp only [Bool.false_eq_true, if_false]
    rw [show (d :: (tail ++ ',' :: ' ' :: X) : LC) = (d :: tail) ++ ',' :: ' ' :: X by simp]
    rw [splitCSgo_app (d :: tail) X (c :: acc) he.2]
    simp

theorem splitCS_joinSep : ∀ {ret : List LC}, ret ≠ [] →
    (∀ e ∈ ret, containsSeq ", ".toList e = false) →
    splitCommaSpace (joinSep ret) = ret
  | [], h, _ => absurd rfl h
  | [e], _, hall => by
    rw [show joinSep [e] = e from rfl]
    exact splitCSgo_sepfree e [] (hall e (by simp))
  | e :: e2 :: rest2, _, hall => by
    rw [show joinSep (e :: e2 :: rest2)
      = e ++ ',' :: ' ' :: joinSep (e2 :: rest2) by simp [joinSep]]
    unfold splitCommaSpace
    rw [splitCSgo_app e (joinSep (e2 :: rest2)) [] (hall e (by simp))]
    rw [show (splitCSgo (joinSep (e2 :: rest2)) [] : List LC)
      = splitCommaSpace (joinSep (e2 :: rest2)) from rfl]
    rw [splitCS_joinSep (by simp) fun x hx => hall x (List.mem_cons_of_mem _ hx)]
    simp

theorem noNl_mem {v : LC} (h : noNl v = true) : ∀ c ∈ v, c ≠ '\n' := by
  intro c hc
  have := List.all_eq_true.mp h c hc
  simpa using this

theorem noNl_append {a b : LC} (ha : noNl a = true) (hb : noNl b = true) :
    noNl (a ++ b) = true := by
  unfold noNl at *
  rw [List.all_eq_true] at *
  intro x hx
  rcases List.mem_append.mp hx with h | h
  · exact ha x h
  · exact hb x h

theorem noNl_of_no_ws {v : LC} (h : ∀ c ∈ v, isWsChar c = false) : noNl v = true := by
  unfold noNl
  rw [List.all_eq_true]
  intro x hx
  have hw := h x hx
  have hx' : x ≠ '\n' := by
    intro hcon
    subst hcon
    exact absurd hw (by decide)
  simp [hx']

theorem joinSep_noNl : ∀ {ret : List LC}, (∀ e ∈ ret, noNl e = true) →
    noNl (joinSep ret) = true
  | [], _ => rfl
  | [e], h => h e (by simp)
  | e :: e2 :: rest2, h => by
    rw [show joinSep (e :: e2 :: rest2)
      = e ++ ", ".toList ++ joinSep (e2 :: rest2) from rfl]
    exact noNl_append (noNl_append (h e (by simp)) (by decide))
      (joinSep_noNl fun x hx => h x (List.mem_cons_of_mem _ hx))

theorem joinSep_ne_nil : ∀ {ret : List LC}, ret ≠ [] → (∀ e ∈ ret, e ≠ []) →
    joinSep ret ≠ []
  | [], h, _ => absurd rfl h
  | [e], _, hall => by
    rw [show joinSep [e] = e from rfl]
    exact hall e (by simp)
  | e :: e2 :: rest2, _, hall => by
    rw [show joinSep (e :: e2 :: rest2)
      = e ++ ", ".toList ++ joinSep (e2 :: rest2) from rfl]
    cases he : e with
    | nil => exact absurd he (hall e (by simp))
    | cons c t => simp

theorem getLast?_append_right {a b : LC} (hb : b ≠ []) :
    (a ++ b).getLast? = b.getLast? := by
  rw [List.getLast?_append]
  cases hx : b.getLast? with
  | none => exact absurd (List.getLast?_eq_none_iff.mp hx) hb
  | some y => rfl

theorem getLast?_not_ws_of_endsOk {v : LC} (h : endsOk v = true) :
    ∀ c, v.getLast? = some c → isWsChar c = false := by
  intro c hc
  unfold endsOk at h
  cases hv : v.reverse with
  | nil =>
    have : v = [] := by simpa using congrArg List.reverse hv
    subst this
    simp at hc
  | cons d t =>
    rw [hv] at h
    have hd : v.getLast? = some d := by
      rw [← List.head?_reverse, hv]; rfl
    rw [hd] at hc
    have : c = d := (Option.some.inj hc).symm
    subst this
    simpa using h

theorem head?_joinLines_cons {h : LC} (rest : List LC) (hne : h ≠ []) :
    (joinLines (h :: rest)).head? = h.head? := by
  cases rest with
  | nil => rfl
  | cons a as =>
    cases h with
    | nil => exact absurd rfl hne
    | cons c t => simp [joinLines]

theorem joinLines_concat_ne_nil : ∀ (ls : List LC) {l : LC}, l ≠ [] →
    joinLines (ls ++ [l]) ≠ []
  | [], l, hl => by simpa [joinLines] using hl
  | a :: as, l, hl => by
    cases has : as ++ [l] with
    | nil => simp at has
    | cons b bs =>
      rw [show ((a :: as) ++ [l] : List LC) = a :: (as ++ [l]) from rfl, has]
      rw [show joinLines (a :: b :: bs) = a ++ '\n' :: joinLines (b :: bs) from rfl]
      simp

theorem getLast?_joinLines : ∀ (ls : List LC) {l : LC}, l ≠ [] →
    (joinLines (ls ++ [l])).getLast? = l.getLast?
  | [], l, _ => by simp [joinLines]
  | a :: as, l, hl => by
    cases has : as ++ [l] with
    | nil => simp at has
    | cons b bs =>
      rw [show ((a :: as) ++ [l] : List LC) = a :: (as ++ [l]) from rfl, has]
      rw [show joinLines (a :: b :: bs) = a ++ '\n' :: joinLines (b :: bs) from rfl]
      have hne : joinLines (b :: bs) ≠ [] := by
        rw [← has]
        exact joinLines_concat_ne_nil as hl
      rw [getLast?_append_right (by simp)]
      rw [show ('\n' :: joinLines (b :: bs) : LC) = ['\n'] ++ joinLines (b :: bs) from rfl]
      rw [getLast?_append_right hne, ← has, getLast?_joinLines as hl]

theorem ne_nl_of_not_ws {c : Char} (h : isWsChar c = false) : c ≠ '\n' := by
  intro hcon
  subst hcon
  exact absurd h (by decide)

theorem idOk_spec {v : LC} (h : idOk v = true) :
    v ≠ [] ∧ ∀ c ∈ v, isWsChar c = false := by
  unfold idOk at h
  simp only [Bool.and_eq_true] at h
  constructor
  · intro hcon
    subst hcon
    simp at h
  · intro c hc
    have := List.all_eq_true.mp h.2 c hc
    simpa using this

theorem fieldOk_spec {v : LC} (h : fieldOk v = true) :
    v ≠ [] ∧ noNl v = true ∧ endsOk v = true := by
  unfold fieldOk at h
  simp only [Bool.and_eq_true] at h
  refine ⟨?_, h.1.2, h.2⟩
  intro hcon
  subst hcon
  simp at h

theorem lookupB_cons_ne {k v : LC} {t : List (LC × LC)} {q : LC} (h : q ≠ k) :
    lookupB ((k, v) :: t) q = lookupB t q := by
  rw [show lookupB ((k, v) :: t) q =
    (match lookupB t q with
     | some w => some w
     | none => if q = k then some v else none) from rfl]
  cases lookupB t q with
  | some w => rfl
  | none => simp [if_neg h]

theorem lookupB_cons_self {k v : LC} {t : List (LC × LC)} (ht : lookupB t k = none) :
    lookupB ((k, v) :: t) k = some v := by
  rw [show lookupB ((k, v) :: t) k =
    (match lookupB t k with
     | some w => some w
     | none => if k = k then some v else none) from rfl, ht]
  simp

theorem bodyPairs_cons_line {L : LC} (v : LC) (rest : List LC)
    (hL : ∀ c ∈ L, c ≠ ':') (hL0 : 0 < L.length) :
    bodyPairs ((L ++ ':' :: ' ' :: v) :: rest)
      = (keyOfChars L, v) :: bodyPairs rest := by
  rw [show bodyPairs ((L ++ ':' :: ' ' :: v) :: rest) =
    (match findColonSpace (L ++ ':' :: ' ' :: v) with
     | some i =>
       if 0 < i then
         (keyOfChars ((L ++ ':' :: ' ' :: v).take i),
           (L ++ ':' :: ' ' :: v).drop (i + 2)) :: bodyPairs rest
       else bodyPairs rest
     | none => bodyPairs rest) from rfl]
  rw [findColonSpace_render v hL]
  rw [show (match some L.length with
     | some i =>
       if 0 < i then
         (keyOfChars ((L ++ ':' :: ' ' :: v).take i),
           (L ++ ':' :: ' ' :: v).drop (i + 2)) :: bodyPairs rest
       else bodyPairs rest
     | none => bodyPairs rest)
    = (if 0 < L.length then
         (keyOfChars ((L ++ ':' :: ' ' :: v).take L.length),
           (L ++ ':' :: ' ' :: v).drop (L.length + 2)) :: bodyPairs rest
       else bodyPairs rest) from rfl, if_pos hL0]
  have htake : (L ++ ':' :: ' ' :: v).take L.length = L := List.take_left L _
  have hdrop : (L ++ ':' :: ' ' :: v).drop (L.length + 2) = v := by
    rw [show (L ++ ':' :: ' ' :: v : LC) = (L ++ [':', ' ']) ++ v by simp]
    exact List.drop_left' (by simp)
  rw [htake, hdrop]

theorem endsOk_append_right {a b : LC} (hb : b ≠ []) :
    endsOk (a ++ b) = endsOk b := by
  unfold endsOk
  rw [List.reverse_append]
  cases hb' : b.reverse with
  | nil =>
    have : b = [] := by simpa using congrArg List.reverse hb'
    exact absurd this hb
  | cons c t => rfl

theorem trim_join_block {h : LC} (mid : List LC) {l : LC}
    (hh : h.head? = some '[')
    (hlast : l ≠ []) (hends : endsOk l = true) :
    trimChars (joinLines (h :: (mid ++ [l]))) = joinLines (h :: (mid ++ [l])) := by
  apply trim_eq_self
  · intro c hc
    have hne : h ≠ [] := by
      intro hcon
      subst hcon
      simp at hh
    rw [head?_joinLines_cons (mid ++ [l]) hne, hh] at hc
    have : c = '[' := (Option.some.inj hc).symm
    subst this
    decide
  · intro c hc
    have hsh : (h :: (mid ++ [l]) : List LC) = (h :: mid) ++ [l] := by simp
    rw [hsh, getLast?_joinLines (h :: mid) hlast] at hc
    exact getLast?_not_ws_of_endsOk hends c hc

theorem headerChars_head? (tag f ts : LC) (sq : Option Nat) :
    (headerChars tag f ts sq).head? = some '[' := rfl

theorem headerChars_no_nl {tag f ts : LC} {sq : Option Nat}
    (hT : ∀ c ∈ tag.map Char.toUpper, c ≠ '\n')
    (hfw : ∀ c ∈ f, isWsChar c = false) (htsw : ∀ c ∈ ts, isWsChar c = false) :
    ∀ c ∈ headerChars tag f ts sq, c ≠ '\n' := by
  intro c hc
  unfold headerChars at hc
  simp only [List.append_assoc, List.mem_append] at hc
  rcases hc with h | h | h | h | h | h | h
  · exact (by decide : ∀ c ∈ "[PROTOCOL:".toList, c ≠ '\n') c h
  · exact hT c h
  · exact (by decide : ∀ c ∈ "] from ".toList, c ≠ '\n') c h
  · exact ne_nl_of_not_ws (hfw c h)
  · exact (by decide : ∀ c ∈ " at ".toList, c ≠ '\n') c h
  · exact ne_nl_of_not_ws (htsw c h)
  · cases sq with
    | none => simp at h
    | some n =>
      simp only [List.mem_append] at h
      rcases h with h | h
      · exact (by decide : ∀ c ∈ " seq=".toList, c ≠ '\n') c h
      · exact ne_nl_of_not_ws (natToChars_not_ws c h)

theorem roundtrip_heartbeat_core {f ts st : LC} {sq : Option Nat} {ct : Option LC}
    (hf0 : f ≠ []) (hfw : ∀ c ∈ f, isWsChar c = false)
    (hts0 : ts ≠ []) (htsw : ∀ c ∈ ts, isWsChar c = false)
    (hst0 : st ≠ []) (hstnl : noNl st = true) (hste : endsOk st = true)
    (hct : optOk ct = true) :
    parseProtocolMessage (formatProtocolMessage (.heartbeat f ts sq st ct))
      = some (.known (.heartbeat f ts sq st ct)) := by
  have hhnl : ∀ c ∈ headerChars "heartbeat".toList f ts sq, c ≠ '\n' :=
    headerChars_no_nl (by decide) hfw htsw
  have hhead : parseHeader (headerChars "heartbeat".toList f ts sq)
      = some ("heartbeat".toList.map Char.toUpper, f, ts, sq) :=
    parseHeader_render sq (by decide) (by decide) hf0 hfw hts0 htsw
  have hlow : ("heartbeat".toList.map Char.toUpper).map Char.toLower
      = "heartbeat".toList := by decide
  have hn1 : ¬ (("heartbeat".toList : LC) = "context_compaction".toList) := by decide
  have hn2 : ¬ (("heartbeat".toList : LC) = "status_update".toList) := by decide
  have hn3 : ¬ (("heartbeat".toList : LC) = "task_handoff".toList) := by decide
  have hn4 : ¬ (("heartbeat".toList : LC) = "error_notice".toList) := by decide
  cases ct with
  | none =>
    have hfmt : formatProtocolMessage (.heartbeat f ts sq st none)
        = joinLines (headerChars "heartbeat".toList f ts sq
            :: ([] ++ ["Status: ".toList ++ st])) := rfl
    have htrim := trim_join_block ([] : List LC)
      (headerChars_head? "heartbeat".toList f ts sq)
      (by simp : ("Status: ".toList ++ st : LC) ≠ [])
      (by rw [endsOk_append_right hst0]; exact hste)
    have hsplit : splitLines (trimChars (formatProtocolMessage (.heartbeat f ts sq st none)))
        = [headerChars "heartbeat".toList f ts sq, "Status: ".toList ++ st] := by
      rw [hfmt, htrim]
      apply splitLines_join (by simp)
      intro l hl c hc
      simp only [List.nil_append, List.mem_cons, List.mem_append, List.not_mem_nil, or_false] at hl
      rcases hl with rfl | rfl
      · exact hhnl c hc
      · rcases List.mem_append.mp hc with h | h
        · exact (by decide : ∀ c ∈ "Status: ".toList, c ≠ '\n') c h
        · exact noNl_mem hstnl c h
    have hbp : bodyPairs ["Status: ".toList ++ st] = [("status".toList, st)] := by
      rw [show ("Status: ".toList ++ st : LC) = "Status".toList ++ ':' :: ' ' :: st from rfl]
      rw [bodyPairs_cons_line st [] (by decide) (by decide)]
      rw [show keyOfChars "Status".toList = "status".toList from by decide]
      rfl
    have hlook1 : lookupB [("status".toList, st)] "status".toList = some st :=
      lookupB_cons_self rfl
    have hlook2 : lookupB [("status".toList, st)] "task".toList = none := by
      rw [lookupB_cons_ne (by decide)]; rfl
    simp only [parseProtocolMessage, hsplit, hhead, hlow, hbp,
      if_neg hn1, if_neg hn2, if_neg hn3, if_neg hn4, if_pos rfl]
    simp only [getNE, hlook1, hlook2, isEmpty_false_of_ne_nil hst0,
      Bool.false_eq_true, if_false]
    simp
  | some w =>
    have hw := fieldOk_spec (by simpa [optOk] using hct)
    obtain ⟨hw0, hwnl, hwe⟩ := hw
    have hfmt : formatProtocolMessage (.heartbeat f ts sq st (some w))
        = joinLines (headerChars "heartbeat".toList f ts sq
            :: (["Status: ".toList ++ st] ++ ["Task: ".toList ++ w])) := by
      rw [show formatProtocolMessage (.heartbeat f ts sq st (some w))
        = joinLines (headerChars "heartbeat".toList f ts sq
            :: ("Status: ".toList ++ st) :: optLine "Task: ".toList (some w)) from rfl]
      rw [show optLine "Task: ".toList (some w) = ["Task: ".toList ++ w] by
        simp [optLine, isEmpty_false_of_ne_nil hw0]]
      rfl
    have htrim := trim_join_block (["Status: ".toList ++ st] : List LC)
      (headerChars_head? "heartbeat".toList f ts sq)
      (by simp : ("Task: ".toList ++ w : LC) ≠ [])
      (by rw [endsOk_append_right hw0]; exact hwe)
    have hsplit : splitLines (trimChars (formatProtocolMessage (.heartbeat f ts sq st (some w))))
        = [headerChars "heartbeat".toList f ts sq,
           "Status: ".toList ++ st, "Task: ".toList ++ w] := by
      rw [hfmt, htrim]
      apply splitLines_join (by simp)
      intro l hl c hc
      simp only [List.nil_append, List.mem_cons, List.mem_append, List.not_mem_nil, or_false] at hl
      rcases hl with rfl | rfl | rfl
      · exact hhnl c hc
      · rcases List.mem_append.mp hc with h | h
        · exact (by decide : ∀ c ∈ "Status: ".toList, c ≠ '\n') c h
        · exact noNl_mem hstnl c h
      · rcases List.mem_append.mp hc with h | h
        · exact (by decide : ∀ c ∈ "Task: ".toList, c ≠ '\n') c h
        · exact noNl_mem hwnl c h
    have hbp : bodyPairs ["Status: ".toList ++ st, "Task: ".toList ++ w]
        = [("status".toList, st), ("task".toList, w)] := by
      rw [show ("Status: ".toList ++ st : LC) = "Status".toList ++ ':' :: ' ' :: st from rfl]
      rw [bodyPairs_cons_line st _ (by decide) (by decide)]
      rw [show ("Task: ".toList ++ w : LC) = "Task".toList ++ ':' :: ' ' :: w from rfl]
      rw [bodyPairs_cons_line w [] (by decide) (by decide)]
      rw [show keyOfChars "Status".toList = "status".toList from by decide]
      rw [show keyOfChars "Task".toList = "task".toList from by decide]
      rfl
    have hlook1 : lookupB [("status".toList, st), ("task".toList, w)] "status".toList
        = some st := by
      apply lookupB_cons_self
      rw [lookupB_cons_ne (by decide)]; rfl
    have hlook2 : lookupB [("status".toList, st), ("task".toList, w)] "task".toList
        = some w := by
      rw [lookupB_cons_ne (by decide)]
      exact lookupB_cons_self rfl
    simp only [parseProtocolMessage, hsplit, hhead, hlow, hbp,
      if_neg hn1, if_neg hn2, if_neg hn3, if_neg hn4, if_pos rfl]
    simp only [getNE, hlook1, hlook2, isEmpty_false_of_ne_nil hst0,
      Bool.false_eq_true, if_false]
    simp

theorem roundtrip_statusUpdate_core {f ts st : LC} {sq : Option Nat} {ct pr : Option LC}
    (hf0 : f ≠ []) (hfw : ∀ c ∈ f, isWsChar c = false)
    (hts0 : ts ≠ []) (htsw : ∀ c ∈ ts, isWsChar c = false)
    (hst0 : st ≠ []) (hstnl : noNl st = true) (hste : endsOk st = true)
    (hct : optOk ct = true) (hpr : optOk pr = true) :
    parseProtocolMessage (formatProtocolMessage (.statusUpdate f ts sq st ct pr))
      = some (.known (.statusUpdate f ts sq st ct pr)) := by
  have hhnl : ∀ c ∈ headerChars "status_update".toList f ts sq, c ≠ '\n' :=
    headerChars_no_nl (by decide) hfw htsw
  have hhead : parseHeader (headerChars "status_update".toList f ts sq)
      = some ("status_update".toList.map Char.toUpper, f, ts, sq) :=
    parseHeader_render sq (by decide) (by decide) hf0 hfw hts0 htsw
  have hlow : ("status_update".toList.map Char.toUpper).map Char.toLower
      = "status_update".toList := by decide
  have hn1 : ¬ (("status_update".toList : LC) = "context_compaction".toList) := by decide
  have hstatusline : ("Status: ".toList ++ st : LC) = "Status".toList ++ ':' :: ' ' :: st := rfl
  cases ct with
  | none =>
    cases pr with
    | none =>
      have hfmt : formatProtocolMessage (.statusUpdate f ts sq st none none)
          = joinLines (headerChars "status_update".toList f ts sq
              :: ([] ++ ["Status: ".toList ++ st])) := rfl
      have htrim := trim_join_block ([] : List LC)
        (headerChars_head? "status_update".toList f ts sq)
        (by simp : ("Status: ".toList ++ st : LC) ≠ [])
        (by rw [endsOk_append_right hst0]; exact hste)
      have hsplit : splitLines (trimChars (formatProtocolMessage (.statusUpdate f ts sq st none none)))
          = [headerChars "status_update".toList f ts sq, "Status: ".toList ++ st] := by
        rw [hfmt, htrim]
        apply splitLines_join (by simp)
        intro l hl c hc
        simp only [List.nil_append, List.mem_cons, List.mem_append, List.not_mem_nil, or_false] at hl
        rcases hl with rfl | rfl
        · exact hhnl c hc
        · rcases List.mem_append.mp hc with h | h
          · exact (by decide : ∀ c ∈ "Status: ".toList, c ≠ '\n') c h
          · exact noNl_mem hstnl c h
      have hbp : bodyPairs ["Status: ".toList ++ st] = [("status".toList, st)] := by
        rw [hstatusline, bodyPairs_cons_line st [] (by decide) (by decide)]
        rw [show keyOfChars "Status".toList = "status".toList from by decide]
        rfl
      have hlook1 : lookupB [("status".toList, st)] "status".toList = some st :=
        lookupB_cons_self rfl
      have hlook2 : lookupB [("status".toList, st)] "task".toList = none := by
        rw [lookupB_cons_ne (by decide)]; rfl
      have hlook3 : lookupB [("status".toList, st)] "progress".toList = none := by
        rw [lookupB_cons_ne (by decide)]; rfl
      simp only [parseProtocolMessage, hsplit, hhead, hlow, hbp, if_neg hn1, if_pos rfl]
      simp only [getNE, hlook1, hlook2, hlook3, isEmpty_false_of_ne_nil hst0,
        Bool.false_eq_true, if_false]
      simp
    | some p =>
      have hp := fieldOk_spec (by simpa [optOk] using hpr)
      obtain ⟨hp0, hpnl, hpe⟩ := hp
      have hfmt : formatProtocolMessage (.statusUpdate f ts sq st none (some p))
          = joinLines (headerChars "status_update".toList f ts sq
              :: (["Status: ".toList ++ st] ++ ["Progress: ".toList ++ p])) := by
        rw [show formatProtocolMessage (.statusUpdate f ts sq st none (some p))
          = joinLines (headerChars "status_update".toList f ts sq
              :: ("Status: ".toList ++ st)
              :: (optLine "Task: ".toList none ++ optLine "Progress: ".toList (some p))) from rfl]
        rw [show optLine "Progress: ".toList (some p) = ["Progress: ".toList ++ p] by
          simp [optLine, isEmpty_false_of_ne_nil hp0]]
        rfl
      have htrim := trim_join_block (["Status: ".toList ++ st] : List LC)
        (headerChars_head? "status_update".toList f ts sq)
        (by simp : ("Progress: ".toList ++ p : LC) ≠ [])
        (by rw [endsOk_append_right hp0]; exact hpe)
      have hsplit : splitLines (trimChars (formatProtocolMessage (.statusUpdate f ts sq st none (some p))))
          = [headerChars "status_update".toList f ts sq,
             "Status: ".toList ++ st, "Progress: ".toList ++ p] := by
        rw [hfmt, htrim]
        apply splitLines_join (by simp)
        intro l hl c hc
        simp only [List.nil_append, List.mem_cons, List.mem_append, List.not_mem_nil, or_false] at hl
        rcases hl with rfl | rfl | rfl
        · exact hhnl c hc
        · rcases List.mem_append.mp hc with h | h
          · exact (by decide : ∀ c ∈ "Status: ".toList, c ≠ '\n') c h
          · exact noNl_mem hstnl c h
        · rcases List.mem_append.mp hc with h | h
          · exact (by decide : ∀ c ∈ "Progress: ".toList, c ≠ '\n') c h
          · exact noNl_mem hpnl c h
      have hbp : bodyPairs ["Status: ".toList ++ st, "Progress: ".toList ++ p]
          = [("status".toList, st), ("progress".toList, p)] := by
        rw [hstatusline, bodyPairs_cons_line st _ (by decide) (by decide)]
        rw [show ("Progress: ".toList ++ p : LC) = "Progress".toList ++ ':' :: ' ' :: p from rfl]
        rw [bodyPairs_cons_line p [] (by decide) (by decide)]
        rw [show keyOfChars "Status".toList = "status".toList from by decide]
        rw [show keyOfChars "Progress".toList = "progress".toList from by decide]
        rfl
      have hlook1 : lookupB [("status".toList, st), ("progress".toList, p)] "status".toList
          = some st := by
        apply lookupB_cons_self
        rw [lookupB_cons_ne (by decide)]; rfl
      have hlook2 : lookupB [("status".toList, st), ("progress".toList, p)] "task".toList
          = none := by
        rw [lookupB_cons_ne (by decide), lookupB_cons_ne (by decide)]; rfl
      have hlook3 : lookupB [("status".toList, st), ("progress".toList, p)] "progress".toList
          = some p := by
        rw [lookupB_cons_ne (by decide)]
        exact lookupB_cons_self rfl
      simp only [parseProtocolMessage, hsplit, hhead, hlow, hbp, if_neg hn1, if_pos rfl]
      simp only [getNE, hlook1, hlook2, hlook3, isEmpty_false_of_ne_nil hst0,
        Bool.false_eq_true, if_false]
      simp
  | some w =>
    have hw := fieldOk_spec (by simpa [optOk] using hct)
    obtain ⟨hw0, hwnl, hwe⟩ := hw
    cases pr with
    | none =>
      have hfmt : formatProtocolMessage (.statusUpdate f ts sq st (some w) none)
          = joinLines (headerChars "status_update".toList f ts sq
              :: (["Status: ".toList ++ st] ++ ["Task: ".toList ++ w])) := by
        rw [show formatProtocolMessage (.statusUpdate f ts sq st (some w) none)
          = joinLines (headerChars "status_update".toList f ts sq
              :: ("Status: ".toList ++ st)
              :: (optLine "Task: ".toList (some w) ++ optLine "Progress: ".toList none)) from rfl]
        rw [show optLine "Task: ".toList (some w) = ["Task: ".toList ++ w] by
          simp [optLine, isEmpty_false_of_ne_nil hw0]]
        rfl
      have htrim := trim_join_block (["Status: ".toList ++ st] : List LC)
        (headerChars_head? "status_update".toList f ts sq)
        (by simp : ("Task: ".toList ++ w : LC) ≠ [])
        (by rw [endsOk_append_right hw0]; exact hwe)
      have hsplit : splitLines (trimChars (formatProtocolMessage (.statusUpdate f ts sq st (some w) none)))
          = [headerChars "status_update".toList f ts sq,
             "Status: ".toList ++ st, "Task: ".toList ++ w] := by
        rw [hfmt, htrim]
        apply splitLines_join (by simp)
        intro l hl c hc
        simp only [List.nil_append, List.mem_cons, List.mem_append, List.not_mem_nil, or_false] at hl
        rcases hl with rfl | rfl | rfl
        · exact hhnl c hc
        · rcases List.mem_append.mp hc with h | h
          · exact (by decide : ∀ c ∈ "Status: ".toList, c ≠ '\n') c h
          · exact noNl_mem hstnl c h
        · rcases List.mem_append.mp hc with h | h
          · exact (by decide : ∀ c ∈ "Task: ".toList, c ≠ '\n') c h
          · exact noNl_mem hwnl c h
      have hbp : bodyPairs ["Status: ".toList ++ st, "Task: ".toList ++ w]
          = [("status".toList, st), ("task".toList, w)] := by
        rw [hstatusline, bodyPairs_cons_line st _ (by decide) (by decide)]
        rw [show ("Task: ".toList ++ w : LC) = "Task".toList ++ ':' :: ' ' :: w from rfl]
        rw [bodyPairs_cons_line w [] (by decide) (by decide)]
        rw [show keyOfChars "Status".toList = "status".toList from by decide]
        rw [show keyOfChars "Task".toList = "task".toList from by decide]
        rfl
      have hlook1 : lookupB [("status".toList, st), ("task".toList, w)] "status".toList
          = some st := by
        apply lookupB_cons_self
        rw [lookupB_cons_ne (by decide)]; rfl
      have hlook2 : lookupB [("status".toList, st), ("task".toList, w)] "task".toList
          = some w := by
        rw [lookupB_cons_ne (by decide)]
        exact lookupB_cons_self rfl
      have hlook3 : lookupB [("status".toList, st), ("task".toList, w)] "progress".toList
          = none := by
        rw [lookupB_cons_ne (by decide), lookupB_cons_ne (by decide)]; rfl
      simp only [parseProtocolMessage, hsplit, hhead, hlow, hbp, if_neg hn1, if_pos rfl]
      simp only [getNE, hlook1, hlook2, hlook3, isEmpty_false_of_ne_nil hst0,
        Bool.false_eq_true, if_false]
      simp
    | some p =>
      have hp := fieldOk_spec (by simpa [optOk] using hpr)
      obtain ⟨hp0, hpnl, hpe⟩ := hp
      have hfmt : formatProtocolMessage (.statusUpdate f ts sq st (some w) (some p))
          = joinLines (headerChars "status_update".toList f ts sq
              :: (["Status: ".toList ++ st, "Task: ".toList ++ w]
                  ++ ["Progress: ".toList ++ p])) := by
        rw [show formatProtocolMessage (.statusUpdate f ts sq st (some w) (some p))
          = joinLines (headerChars "status_update".toList f ts sq
              :: ("Status: ".toList ++ st)
              :: (optLine "Task: ".toList (some w) ++ optLine "Progress: ".toList (some p))) from rfl]
        rw [show optLine "Task: ".toList (some w) = ["Task: ".toList ++ w] by
          simp [optLine, isEmpty_false_of_ne_nil hw0]]
        rw [show optLine "Progress: ".toList (some p) = ["Progress: ".toList ++ p] by
          simp [optLine, isEmpty_false_of_ne_nil hp0]]
        rfl
      have htrim := trim_join_block
        (["Status: ".toList ++ st, "Task: ".toList ++ w] : List LC)
        (headerChars_head? "status_update".toList f ts sq)
        (by simp : ("Progress: ".toList ++ p : LC) ≠ [])
        (by rw [endsOk_append_right hp0]; exact hpe)
      have hsplit : splitLines (trimChars (formatProtocolMessage (.statusUpdate f ts sq st (some w) (some p))))
          = [headerChars "status_update".toList f ts sq,
             "Status: ".toList ++ st, "Task: ".toList ++ w, "Progress: ".toList ++ p] := by
        rw [hfmt, htrim]
        apply splitLines_join (by simp)
        intro l hl c hc
        simp only [List.nil_append, List.mem_cons, List.mem_append, List.not_mem_nil, or_false] at hl
        rcases hl with rfl | (rfl | rfl) | rfl
        · exact hhnl c hc
        · rcases List.mem_append.mp hc with h | h
          · exact (by decide : ∀ c ∈ "Status: ".toList, c ≠ '\n') c h
          · exact noNl_mem hstnl c h
        · rcases List.mem_append.mp hc with h | h
          · exact (by decide : ∀ c ∈ "Task: ".toList, c ≠ '\n') c h
          · exact noNl_mem hwnl c h
        · rcases List.mem_append.mp hc with h | h
          · exact (by decide : ∀ c ∈ "Progress: ".toList, c ≠ '\n') c h
          · exact noNl_mem hpnl c h
      have hbp : bodyPairs ["Status: ".toList ++ st, "Task: ".toList ++ w,
          "Progress: ".toList ++ p]
          = [("status".toList, st), ("task".toList, w), ("progress".toList, p)] := by
        rw [hstatusline, bodyPairs_cons_line st _ (by decide) (by decide)]
        rw [show ("Task: ".toList ++ w : LC) = "Task".toList ++ ':' :: ' ' :: w from rfl]
        rw [bodyPairs_cons_line w _ (by decide) (by decide)]
        rw [show ("Progress: ".toList ++ p : LC) = "Progress".toList ++ ':' :: ' ' :: p from rfl]
        rw [bodyPairs_cons_line p [] (by decide) (by decide)]
        rw [show keyOfChars "Status".toList = "status".toList from by decide]
        rw [show keyOfChars "Task".toList = "task".toList from by decide]
        rw [show keyOfChars "Progress".toList = "progress".toList from by decide]
        rfl
      have hlook1 : lookupB [("status".toList, st), ("task".toList, w),
          ("progress".toList, p)] "status".toList = some st := by
        apply lookupB_cons_self
        rw [lookupB_cons_ne (by decide), lookupB_cons_ne (by decide)]; rfl
      have hlook2 : lookupB [("status".toList, st), ("task".toList, w),
          ("progress".toList, p)] "task".toList = some w := by
        rw [lookupB_cons_ne (by decide)]
        apply lookupB_cons_self
        rw [lookupB_cons_ne (by decide)]; rfl
      have hlook3 : lookupB [("status".toList, st), ("task".toList, w),
          ("progress".toList, p)] "progress".toList = some p := by
        rw [lookupB_cons_ne (by decide), lookupB_cons_ne (by decide)]
        exact lookupB_cons_self rfl
      simp only [parseProtocolMessage, hsplit, hhead, hlow, hbp, if_neg hn1, if_pos rfl]
      simp only [getNE, hlook1, hlook2, hlook3, isEmpty_false_of_ne_nil hst0,
        Bool.false_eq_true, if_false]
      simp

theorem roundtrip_taskHandoff_core {f ts task pr ctx : LC} {sq : Option Nat}
    (hf0 : f ≠ []) (hfw : ∀ c ∈ f, isWsChar c = false)
    (hts0 : ts ≠ []) (htsw : ∀ c ∈ ts, isWsChar c = false)
    (htknl : noNl task = true)
    (hpr0 : pr ≠ []) (hprnl : noNl pr = true)
    (hctx0 : ctx ≠ []) (hctxnl : noNl ctx = true) (hctxe : endsOk ctx = true) :
    parseProtocolMessage (formatProtocolMessage (.taskHandoff f ts sq task pr ctx))
      = some (.known (.taskHandoff f ts sq task pr ctx)) := by
  have hhnl : ∀ c ∈ headerChars "task_handoff".toList f ts sq, c ≠ '\n' :=
    headerChars_no_nl (by decide) hfw htsw
  have hhead : parseHeader (headerChars "task_handoff".toList f ts sq)
      = some ("task_handoff".toList.map Char.toUpper, f, ts, sq) :=
    parseHeader_render sq (by decide) (by decide) hf0 hfw hts0 htsw
  have hlow : ("task_handoff".toList.map Char.toUpper).map Char.toLower
      = "task_handoff".toList := by decide
  have hn1 : ¬ (("task_handoff".toList : LC) = "context_compaction".toList) := by decide
  have hn2 : ¬ (("task_handoff".toList : LC) = "status_update".toList) := by decide
  have hfmt : formatProtocolMessage (.taskHandoff f ts sq task pr ctx)
      = joinLines (headerChars "task_handoff".toList f ts sq
          :: (["Task: ".toList ++ task, "Priority: ".toList ++ pr]
              ++ ["Context: ".toList ++ ctx])) := rfl
  have htrim := trim_join_block
    (["Task: ".toList ++ task, "Priority: ".toList ++ pr] : List LC)
    (headerChars_head? "task_handoff".toList f ts sq)
    (by simp : ("Context: ".toList ++ ctx : LC) ≠ [])
    (by rw [endsOk_append_right hctx0]; exact hctxe)
  have hsplit : splitLines (trimChars (formatProtocolMessage (.taskHandoff f ts sq task pr ctx)))
      = [headerChars "task_handoff".toList f ts sq,
         "Task: ".toList ++ task, "Priority: ".toList ++ pr, "Context: ".toList ++ ctx] := by
    rw [hfmt, htrim]
    apply splitLines_join (by simp)
    intro l hl c hc
    simp only [List.nil_append, List.mem_cons, List.mem_append, List.not_mem_nil, or_false] at hl
    rcases hl with rfl | (rfl | rfl) | rfl
    · exact hhnl c hc
    · rcases List.mem_append.mp hc with h | h
      · exact (by decide : ∀ c ∈ "Task: ".toList, c ≠ '\n') c h
      · exact noNl_mem htknl c h
    · rcases List.mem_append.mp hc with h | h
      · exact (by decide : ∀ c ∈ "Priority: ".toList, c ≠ '\n') c h
      · exact noNl_mem hprnl c h
    · rcases List.mem_append.mp hc with h | h
      · exact (by decide : ∀ c ∈ "Context: ".toList, c ≠ '\n') c h
      · exact noNl_mem hctxnl c h
  have hbp : bodyPairs ["Task: ".toList ++ task, "Priority: ".toList ++ pr,
      "Context: ".toList ++ ctx]
      = [("task".toList, task), ("priority".toList, pr), ("context".toList, ctx)] := by
    rw [show ("Task: ".toList ++ task : LC) = "Task".toList ++ ':' :: ' ' :: task from rfl]
    rw [bodyPairs_cons_line task _ (by decide) (by decide)]
    rw [show ("Priority: ".toList ++ pr : LC) = "Priority".toList ++ ':' :: ' ' :: pr from rfl]
    rw [bodyPairs_cons_line pr _ (by decide) (by decide)]
    rw [show ("Context: ".toList ++ ctx : LC) = "Context".toList ++ ':' :: ' ' :: ctx from rfl]
    rw [bodyPairs_cons_line ctx [] (by decide) (by decide)]
    rw [show keyOfChars "Task".toList = "task".toList from by decide]
    rw [show keyOfChars "Priority".toList = "priority".toList from by decide]
    rw [show keyOfChars "Context".toList = "context".toList from by decide]
    rfl
  have hlook1 : lookupB [("task".toList, task), ("priority".toList, pr),
      ("context".toList, ctx)] "task".toList = some task := by
    apply lookupB_cons_self
    rw [lookupB_cons_ne (by decide), lookupB_cons_ne (by decide)]; rfl
  have hlook2 : lookupB [("task".toList, task), ("priority".toList, pr),
      ("context".toList, ctx)] "priority".toList = some pr := by
    rw [lookupB_cons_ne (by decide)]
    apply lookupB_cons_self
    rw [lookupB_cons_ne (by decide)]; rfl
  have hlook3 : lookupB [("task".toList, task), ("priority".toList, pr),
      ("context".toList, ctx)] "context".toList = some ctx := by
    rw [lookupB_cons_ne (by decide), lookupB_cons_ne (by decide)]
    exact lookupB_cons_self rfl
  simp only [parseProtocolMessage, hsplit, hhead, hlow, hbp,
    if_neg hn1, if_neg hn2, if_pos rfl]
  simp only [getS, getNE, hlook1, hlook2, hlook3, isEmpty_false_of_ne_nil hpr0,
    Bool.false_eq_true, if_false, Option.getD_some]
  simp

theorem roundtrip_errorNotice_core {f ts err : LC} {sq : Option Nat} {r na : Bool}
    (hf0 : f ≠ []) (hfw : ∀ c ∈ f, isWsChar c = false)
    (hts0 : ts ≠ []) (htsw : ∀ c ∈ ts, isWsChar c = false)
    (hernl : noNl err = true) :
    parseProtocolMessage (formatProtocolMessage (.errorNotice f ts sq err r na))
      = some (.known (.errorNotice f ts sq err r na)) := by
  have hhnl : ∀ c ∈ headerChars "error_notice".toList f ts sq, c ≠ '\n' :=
    headerChars_no_nl (by decide) hfw htsw
  have hhead : parseHeader (headerChars "error_notice".toList f ts sq)
      = some ("error_notice".toList.map Char.toUpper, f, ts, sq) :=
    parseHeader_render sq (by decide) (by decide) hf0 hfw hts0 htsw
  have hlow : ("error_notice".toList.map Char.toUpper).map Char.toLower
      = "error_notice".toList := by decide
  have hn1 : ¬ (("error_notice".toList : LC) = "context_compaction".toList) := by decide
  have hn2 : ¬ (("error_notice".toList : LC) = "status_update".toList) := by decide
  have hn3 : ¬ (("error_notice".toList : LC) = "task_handoff".toList) := by decide
  have hb1 : (if r then "true".toList else "false".toList : LC) ≠ [] := by
    cases r <;> decide
  have hb1nl : noNl (if r then "true".toList else "false".toList) = true := by
    cases r <;> decide
  have hb2 : (if na then "true".toList else "false".toList : LC) ≠ [] := by
    cases na <;> decide
  have hb2nl : noNl (if na then "true".toList else "false".toList) = true := by
    cases na <;> decide
  have hb2e : endsOk (if na then "true".toList else "false".toList) = true := by
    cases na <;> decide
  have hfmt : formatProtocolMessage (.errorNotice f ts sq err r na)
      = joinLines (headerChars "error_notice".toList f ts sq
          :: (["Error: ".toList ++ err,
               "Recoverable: ".toList ++ (if r then "true".toList else "false".toList)]
              ++ ["Needs assistance: ".toList
                  ++ (if na then "true".toList else "false".toList)])) := rfl
  have htrim := trim_join_block
    (["Error: ".toList ++ err,
      "Recoverable: ".toList ++ (if r then "true".toList else "false".toList)] : List LC)
    (headerChars_head? "error_notice".toList f ts sq)
    (by simp : ("Needs assistance: ".toList
        ++ (if na then "true".toList else "false".toList) : LC) ≠ [])
    (by rw [endsOk_append_right hb2]; exact hb2e)
  have hsplit : splitLines (trimChars (formatProtocolMessage (.errorNotice f ts sq err r na)))
      = [headerChars "error_notice".toList f ts sq,
         "Error: ".toList ++ err,
         "Recoverable: ".toList ++ (if r then "true".toList else "false".toList),
         "Needs assistance: ".toList ++ (if na then "true".toList else "false".toList)] := by
    rw [hfmt, htrim]
    apply splitLines_join (by simp)
    intro l hl c hc
    simp only [List.nil_append, List.mem_cons, List.mem_append, List.not_mem_nil, or_false] at hl
    rcases hl with rfl | (rfl | rfl) | rfl
    · exact hhnl c hc
    · rcases List.mem_append.mp hc with h | h
      · exact (by decide : ∀ c ∈ "Error: ".toList, c ≠ '\n') c h
      · exact noNl_mem hernl c h
    · rcases List.mem_append.mp hc with h | h
      · exact (by decide : ∀ c ∈ "Recoverable: ".toList, c ≠ '\n') c h
      · exact noNl_mem hb1nl c h
    · rcases List.mem_append.mp hc with h | h
      · exact (by decide : ∀ c ∈ "Needs assistance: ".toList, c ≠ '\n') c h
      · exact noNl_mem hb2nl c h
  have hbp : bodyPairs ["Error: ".toList ++ err,
      "Recoverable: ".toList ++ (if r then "true".toList else "false".toList),
      "Needs assistance: ".toList ++ (if na then "true".toList else "false".toList)]
      = [("error".toList, err),
         ("recoverable".toList, if r then "true".toList else "false".toList),
         ("needs_assistance".toList, if na then "true".toList else "false".toList)] := by
    rw [show ("Error: ".toList ++ err : LC) = "Error".toList ++ ':' :: ' ' :: err from rfl]
    rw [bodyPairs_cons_line err _ (by decide) (by decide)]
    rw [show ("Recoverable: ".toList ++ (if r then "true".toList else "false".toList) : LC)
      = "Recoverable".toList ++ ':' :: ' '
          :: (if r then "true".toList else "false".toList) from rfl]
    rw [bodyPairs_cons_line (if r then "true".toList else "false".toList) _
      (by decide) (by decide)]
    rw [show ("Needs assistance: ".toList
        ++ (if na then "true".toList else "false".toList) : LC)
      = "Needs assistance".toList ++ ':' :: ' '
          :: (if na then "true".toList else "false".toList) from rfl]
    rw [bodyPairs_cons_line (if na then "true".toList else "false".toList) []
      (by decide) (by decide)]
    rw [show keyOfChars "Error".toList = "error".toList from by decide]
    rw [show keyOfChars "Recoverable".toList = "recoverable".toList from by decide]
    rw [show keyOfChars "Needs assistance".toList = "needs_assistance".toList from by decide]
    rfl
  have hlook1 : lookupB [("error".toList, err),
      ("recoverable".toList, if r then "true".toList else "false".toList),
      ("needs_assistance".toList, if na then "true".toList else "false".toList)]
      "error".toList = some err := by
    apply lookupB_cons_self
    rw [lookupB_cons_ne (by decide), lookupB_cons_ne (by decide)]; rfl
  have hlook2 : lookupB [("error".toList, err),
      ("recoverable".toList, if r then "true".toList else "false".toList),
      ("needs_assistance".toList, if na then "true".toList else "false".toList)]
      "recoverable".toList = some (if r then "true".toList else "false".toList) := by
    rw [lookupB_cons_ne (by decide)]
    apply lookupB_cons_self
    rw [lookupB_cons_ne (by decide)]; rfl
  have hlook3 : lookupB [("error".toList, err),
      ("recoverable".toList, if r then "true".toList else "false".toList),
      ("needs_assistance".toList, if na then "true".toList else "false".toList)]
      "needs_assistance".toList
      = some (if na then "true".toList else "false".toList) := by
    rw [lookupB_cons_ne (by decide), lookupB_cons_ne (by decide)]
    exact lookupB_cons_self rfl
  have hdec1 : (some (if r then "true".toList else "false".toList)
      = some ("true".toList : LC)) = (r = true) := by
    cases r <;> simp
  have hdec2 : (some (if na then "true".toList else "false".toList)
      = some ("true".toList : LC)) = (na = true) := by
    cases na <;> simp
  simp only [parseProtocolMessage, hsplit, hhead, hlow, hbp,
    if_neg hn1, if_neg hn2, if_neg hn3, if_pos rfl]
  simp only [getS, hlook1, hlook2, hlook3, Option.getD_some, hdec1, hdec2]
  simp

theorem roundtrip_compaction_core {f ts summary cts : LC} {ret : List LC} {sq : Option Nat}
    (hf0 : f ≠ []) (hfw : ∀ c ∈ f, isWsChar c = false)
    (hts0 : ts ≠ []) (htsw : ∀ c ∈ ts, isWsChar c = false)
    (hsnl : noNl summary = true)
    (hret : ∀ e ∈ ret, e ≠ [] ∧ noNl e = true ∧ containsSeq ", ".toList e = false)
    (hcts0 : cts ≠ []) (hctsnl : noNl cts = true) (hctse : endsOk cts = true) :
    parseProtocolMessage (formatProtocolMessage (.compaction f ts sq summary ret cts))
      = some (.known (.compaction f ts sq summary ret cts)) := by
  have hhnl : ∀ c ∈ headerChars "context_compaction".toList f ts sq, c ≠ '\n' :=
    headerChars_no_nl (by decide) hfw htsw
  have hhead : parseHeader (headerChars "context_compaction".toList f ts sq)
      = some ("context_compaction".toList.map Char.toUpper, f, ts, sq) :=
    parseHeader_render sq (by decide) (by decide) hf0 hfw hts0 htsw
  have hlow : ("context_compaction".toList.map Char.toUpper).map Char.toLower
      = "context_compaction".toList := by decide
  have hjnl : noNl (joinSep ret) = true :=
    joinSep_noNl fun e he => (hret e he).2.1
  have hfmt : formatProtocolMessage (.compaction f ts sq summary ret cts)
      = joinLines (headerChars "context_compaction".toList f ts sq
          :: (["Summary: ".toList ++ summary, "Retained: ".toList ++ joinSep ret]
              ++ ["Current task: ".toList ++ cts])) := rfl
  have htrim := trim_join_block
    (["Summary: ".toList ++ summary, "Retained: ".toList ++ joinSep ret] : List LC)
    (headerChars_head? "context_compaction".toList f ts sq)
    (by simp : ("Current task: ".toList ++ cts : LC) ≠ [])
    (by rw [endsOk_append_right hcts0]; exact hctse)
  have hsplit : splitLines (trimChars (formatProtocolMessage (.compaction f ts sq summary ret cts)))
      = [headerChars "context_compaction".toList f ts sq,
         "Summary: ".toList ++ summary, "Retained: ".toList ++ joinSep ret,
         "Current task: ".toList ++ cts] := by
    rw [hfmt, htrim]
    apply splitLines_join (by simp)
    intro l hl c hc
    simp only [List.nil_append, List.mem_cons, List.mem_append, List.not_mem_nil, or_false] at hl
    rcases hl with rfl | (rfl | rfl) | rfl
    · exact hhnl c hc
    · rcases List.mem_append.mp hc with h | h
      · exact (by decide : ∀ c ∈ "Summary: ".toList, c ≠ '\n') c h
      · exact noNl_mem hsnl c h
    · rcases List.mem_append.mp hc with h | h
      · exact (by decide : ∀ c ∈ "Retained: ".toList, c ≠ '\n') c h
      · exact noNl_mem hjnl c h
    · rcases List.mem_append.mp hc with h | h
      · exact (by decide : ∀ c ∈ "Current task: ".toList, c ≠ '\n') c h
      · exact noNl_mem hctsnl c h
  have hbp : bodyPairs ["Summary: ".toList ++ summary,
      "Retained: ".toList ++ joinSep ret, "Current task: ".toList ++ cts]
      = [("summary".toList, summary), ("retained".toList, joinSep ret),
         ("current_task".toList, cts)] := by
    rw [show ("Summary: ".toList ++ summary : LC)
      = "Summary".toList ++ ':' :: ' ' :: summary from rfl]
    rw [bodyPairs_cons_line summary _ (by decide) (by decide)]
    rw [show ("Retained: ".toList ++ joinSep ret : LC)
      = "Retained".toList ++ ':' :: ' ' :: joinSep ret from rfl]
    rw [bodyPairs_cons_line (joinSep ret) _ (by decide) (by decide)]
    rw [show ("Current task: ".toList ++ cts : LC)
      = "Current task".toList ++ ':' :: ' ' :: cts from rfl]
    rw [bodyPairs_cons_line cts [] (by decide) (by decide)]
    rw [show keyOfChars "Summary".toList = "summary".toList from by decide]
    rw [show keyOfChars "Retained".toList = "retained".toList from by decide]
    rw [show keyOfChars "Current task".toList = "current_task".toList from by decide]
    rfl
  have hlook1 : lookupB [("summary".toList, summary), ("retained".toList, joinSep ret),
      ("current_task".toList, cts)] "summary".toList = some summary := by
    apply lookupB_cons_self
    rw [lookupB_cons_ne (by decide), lookupB_cons_ne (by decide)]; rfl
  have hlook2 : lookupB [("summary".toList, summary), ("retained".toList, joinSep ret),
      ("current_task".toList, cts)] "retained".toList = some (joinSep ret) := by
    rw [lookupB_cons_ne (by decide)]
    apply lookupB_cons_self
    rw [lookupB_cons_ne (by decide)]; rfl
  have hlook3 : lookupB [("summary".toList, summary), ("retained".toList, joinSep ret),
      ("current_task".toList, cts)] "current_task".toList = some cts := by
    rw [lookupB_cons_ne (by decide), lookupB_cons_ne (by decide)]
    exact lookupB_cons_self rfl
  have hretval : (if (joinSep ret).isEmpty then ([] : List LC)
      else splitCommaSpace (joinSep ret)) = ret := by
    cases hr : ret with
    | nil => simp [joinSep]
    | cons e rest =>
      have hne : joinSep (e :: rest) ≠ [] := by
        apply joinSep_ne_nil (by simp)
        intro x hx
        exact (hret x (hr ▸ hx)).1
      rw [if_neg (by simpa using fun hcon => hne (List.isEmpty_iff.mp hcon))]
      · exact splitCS_joinSep (by simp) fun x hx => (hret x (hr ▸ hx)).2.2
  simp only [parseProtocolMessage, hsplit, hhead, hlow, hbp, if_pos rfl]
  simp only [getS, hlook1, hlook2, hlook3, Option.getD_some, hretval]
  simp

/-! ## Claim C1: round-trip law -/

/-- Claim C1 as stated is false: the round-trip law fails for a
constructible heartbeat whose sender contains a space (the header grammar
`[^\s]+` cannot represent it), so `parseProtocolMessage ∘
formatProtocolMessage` is not the identity on all constructible
messages.  Here the decode of the encode is `none`. -/
theorem c1_roundtrip_counterexample :
    parseProtocolMessage (formatProtocolMessage
      (.heartbeat "a b".toList "t".toList none "alive".toList none))
      ≠ some (.known (.heartbeat "a b".toList "t".toList none "alive".toList none)) := by
  decide

/-- Claim C1 (amended): the round-trip law
`parseProtocolMessage (formatProtocolMessage m) = some m` holds for every
constructible message that is well-formed for the wire format: sender and
timestamp non-empty and whitespace-free, text fields populated with no
newline and no trailing whitespace, optional fields absent or truthy, and
list entries populated without the `", "` separator. -/
theorem c1_roundtrip (m : KMsg) (h : wellFormedMsg m = true) :
    parseProtocolMessage (formatProtocolMessage m) = some (.known m) := by
  cases m with
  | compaction f ts sq summary ret cts =>
    simp only [wellFormedMsg, Bool.and_eq_true] at h
    obtain ⟨⟨⟨⟨hf, hts⟩, hsum⟩, hretall⟩, hcts⟩ := h
    obtain ⟨hf0, hfw⟩ := idOk_spec hf
    obtain ⟨hts0, htsw⟩ := idOk_spec hts
    obtain ⟨_, hsnl, _⟩ := fieldOk_spec hsum
    obtain ⟨hc0, hcnl, hce⟩ := fieldOk_spec hcts
    refine roundtrip_compaction_core hf0 hfw hts0 htsw hsnl ?_ hc0 hcnl hce
    intro e he
    have hall := List.all_eq_true.mp hretall e he
    simp only [Bool.and_eq_true] at hall
    obtain ⟨hfo, hcs⟩ := hall
    obtain ⟨h1, h2, _⟩ := fieldOk_spec hfo
    exact ⟨h1, h2, by simpa using hcs⟩
  | statusUpdate f ts sq st ct pr =>
    simp only [wellFormedMsg, Bool.and_eq_true] at h
    obtain ⟨⟨⟨⟨hf, hts⟩, hst⟩, hct⟩, hpr⟩ := h
    obtain ⟨hf0, hfw⟩ := idOk_spec hf
    obtain ⟨hts0, htsw⟩ := idOk_spec hts
    have henum : st = "idle".toList ∨ st = "working".toList
        ∨ st = "blocked".toList ∨ st = "completed".toList := by
      simp only [Bool.or_eq_true, beq_iff_eq] at hst
      tauto
    have hst0 : st ≠ [] := by
      rcases henum with rfl | rfl | rfl | rfl <;> decide
    have hstnl : noNl st = true := by
      rcases henum with rfl | rfl | rfl | rfl <;> decide
    have hste : endsOk st = true := by
      rcases henum with rfl | rfl | rfl | rfl <;> decide
    exact roundtrip_statusUpdate_core hf0 hfw hts0 htsw hst0 hstnl hste hct hpr
  | taskHandoff f ts sq task pr ctx =>
    simp only [wellFormedMsg, Bool.and_eq_true] at h
    obtain ⟨⟨⟨⟨hf, hts⟩, htask⟩, hpr⟩, hctx⟩ := h
    obtain ⟨hf0, hfw⟩ := idOk_spec hf
    obtain ⟨hts0, htsw⟩ := idOk_spec hts
    obtain ⟨_, htknl, _⟩ := fieldOk_spec htask
    obtain ⟨hc0, hcnl, hce⟩ := fieldOk_spec hctx
    have henum : pr = "low".toList ∨ pr = "medium".toList ∨ pr = "high".toList := by
      simp only [Bool.or_eq_true, beq_iff_eq] at hpr
      tauto
    have hpr0 : pr ≠ [] := by
      rcases henum with rfl | rfl | rfl <;> decide
    have hprnl : noNl pr = true := by
      rcases henum with rfl | rfl | rfl <;> decide
    exact roundtrip_taskHandoff_core hf0 hfw hts0 htsw htknl hpr0 hprnl hc0 hcnl hce
  | errorNotice f ts sq err r na =>
    simp only [wellFormedMsg, Bool.and_eq_true] at h
    obtain ⟨⟨hf, hts⟩, herr⟩ := h
    obtain ⟨hf0, hfw⟩ := idOk_spec hf
    obtain ⟨hts0, htsw⟩ := idOk_spec hts
    obtain ⟨_, hernl, _⟩ := fieldOk_spec herr
    exact roundtrip_errorNotice_core hf0 hfw hts0 htsw hernl
  | heartbeat f ts sq st ct =>
    simp only [wellFormedMsg, Bool.and_eq_true] at h
    obtain ⟨⟨⟨hf, hts⟩, hst⟩, hct⟩ := h
    obtain ⟨hf0, hfw⟩ := idOk_spec hf
    obtain ⟨hts0, htsw⟩ := idOk_spec hts
    have henum : st = "alive".toList ∨ st = "busy".toList ∨ st = "idle".toList := by
      simp only [Bool.or_eq_true, beq_iff_eq] at hst
      tauto
    have hst0 : st ≠ [] := by
      rcases henum with rfl | rfl | rfl <;> decide
    have hstnl : noNl st = true := by
      rcases henum with rfl | rfl | rfl <;> decide
    have hste : endsOk st = true := by
      rcases henum with rfl | rfl | rfl <;> decide
    exact roundtrip_heartbeat_core hf0 hfw hts0 htsw hst0 hstnl hste hct

/-- Witness for C1: a concrete well-formed status update with both
optional fields present round-trips, via `c1_roundtrip`. -/
theorem c1_roundtrip_witness :
    wellFormedMsg (.statusUpdate "claude-dev".toList "2025-12-17T08:00:00Z".toList
      (some 1) "working".toList (some "build".toList) (some "50%".toList)) = true
    ∧ parseProtocolMessage (formatProtocolMessage
        (.statusUpdate "claude-dev".toList "2025-12-17T08:00:00Z".toList
          (some 1) "working".toList (some "build".toList) (some "50%".toList)))
      = some (.known (.statusUpdate "claude-dev".toList "2025-12-17T08:00:00Z".toList
          (some 1) "working".toList (some "build".toList) (some "50%".toList))) :=
  ⟨by decide, c1_roundtrip _ (by decide)⟩

/-! ## Claim C2: heartbeat body defaulting -/

/-- Claim C2 as stated is false: a heartbeat header whose body lacks the
`Status` line decodes (non-null, no error) but with status `"alive"`, the
source's default, which is not the `"idle"` state of the heartbeat status
enumeration `{alive, busy, idle}`. -/
theorem c2_default_counterexample :
    parseProtocolMessage "[PROTOCOL:HEARTBEAT] from a at t".toList
      = some (.known (.heartbeat "a".toList "t".toList none "alive".toList none))
    ∧ ("alive".toList : LC) ≠ "idle".toList := by
  decide

/-- Claim C2 (amended): for every input whose first trimmed line is a
well-formed header of type heartbeat and whose body yields no `status`
key, decode returns a non-null heartbeat message (it does not fail) whose
status field is the documented default `"alive"`. -/
theorem c2_heartbeat_default {text h : LC} {body : List LC} {T f ts : LC}
    {sq : Option Nat}
    (hsplit : splitLines (trimChars text) = h :: body)
    (hhead : parseHeader h = some (T, f, ts, sq))
    (htype : T.map Char.toLower = "heartbeat".toList)
    (hnostatus : lookupB (bodyPairs body) "status".toList = none) :
    parseProtocolMessage text
      = some (.known (.heartbeat f ts sq "alive".toList
          (lookupB (bodyPairs body) "task".toList))) := by
  have hn1 : ¬ (("heartbeat".toList : LC) = "context_compaction".toList) := by decide
  have hn2 : ¬ (("heartbeat".toList : LC) = "status_update".toList) := by decide
  have hn3 : ¬ (("heartbeat".toList : LC) = "task_handoff".toList) := by decide
  have hn4 : ¬ (("heartbeat".toList : LC) = "error_notice".toList) := by decide
  simp only [parseProtocolMessage, hsplit, hhead, htype,
    if_neg hn1, if_neg hn2, if_neg hn3, if_neg hn4, if_pos rfl]
  simp only [getNE, hnostatus]
  simp

/-- Witness for C2 (amended): a concrete heartbeat block with a `Task`
line but no `Status` line decodes to status `"alive"`. -/
theorem c2_heartbeat_default_witness :
    splitLines (trimChars "[PROTOCOL:HEARTBEAT] from a at t\nTask: x".toList)
      = ["[PROTOCOL:HEARTBEAT] from a at t".toList, "Task: x".toList]
    ∧ parseHeader "[PROTOCOL:HEARTBEAT] from a at t".toList
      = some ("HEARTBEAT".toList, "a".toList, "t".toList, none)
    ∧ parseProtocolMessage "[PROTOCOL:HEARTBEAT] from a at t\nTask: x".toList
      = some (.known (.heartbeat "a".toList "t".toList none "alive".toList
          (some "x".toList))) :=
  ⟨by decide, by decide,
    c2_heartbeat_default
      (show splitLines (trimChars "[PROTOCOL:HEARTBEAT] from a at t\nTask: x".toList)
        = "[PROTOCOL:HEARTBEAT] from a at t".toList :: ["Task: x".toList] by decide)
      (show parseHeader "[PROTOCOL:HEARTBEAT] from a at t".toList
        = some ("HEARTBEAT".toList, "a".toList, "t".toList, none) by decide)
      (by decide) (by decide)⟩

/-! ## Claim C3: pre-filter agreement -/

theorem parseHeader_some_shape {hd : LC} {res : LC × LC × LC × Option Nat}
    (h : parseHeader hd = some res) :
    ∃ T r2 : LC, hd = "[PROTOCOL:".toList ++ (T ++ (']' :: (" from ".toList ++ r2)))
      ∧ T ≠ [] ∧ (∀ c ∈ T, isHeadChar c = true) := by
  unfold parseHeader at h
  cases hs1 : stripPre "[PROTOCOL:".toList hd with
  | none => rw [hs1] at h; simp at h
  | some r1 =>
    rw [hs1] at h
    dsimp only [] at h
    by_cases hT : (r1.takeWhile isHeadChar).isEmpty = true
    · rw [if_pos hT] at h
      simp at h
    · rw [if_neg hT] at h
      cases hs2 : stripPre "] from ".toList (r1.dropWhile isHeadChar) with
      | none => rw [hs2] at h; simp at h
      | some r2 =>
        have e1 : hd = "[PROTOCOL:".toList ++ r1 := stripPre_eq_some hs1
        have e2 : r1.dropWhile isHeadChar = "] from ".toList ++ r2 :=
          stripPre_eq_some hs2
        have e3 : r1 = r1.takeWhile isHeadChar ++ r1.dropWhile isHeadChar :=
          (List.takeWhile_append_dropWhile isHeadChar r1).symm
        refine ⟨r1.takeWhile isHeadChar, r2, ?_, ?_, ?_⟩
        · rw [e1]
          conv_lhs => rw [e3, e2]
          rfl
        · intro hcon
          rw [hcon] at hT
          simp at hT
        · intro c hc
          exact List.mem_takeWhile_imp hc

/-- Claim C3 as stated is false: `isProtocolMessage` is a tag pre-filter
only; it accepts `[PROTOCOL:HEARTBEAT] oops`, whose first line does not
match the full header grammar, so `parseProtocolMessage` returns null. -/
theorem c3_prefilter_counterexample :
    isProtocolMessage "[PROTOCOL:HEARTBEAT] oops".toList = true
    ∧ parseProtocolMessage "[PROTOCOL:HEARTBEAT] oops".toList = none := by
  decide

/-- Claim C3 (amended): the agreement holds in one direction only — for
every input text, if `parseProtocolMessage` returns non-null, then
`isProtocolMessage` is true (a full header match implies the leading
`[PROTOCOL:<TYPE>]` tag match).  The converse fails, since the pre-filter
checks only the leading tag of the trimmed text, not the full header. -/
theorem c3_parse_nonnull_implies_isMessage (text : LC)
    (hsome : (parseProtocolMessage text).isSome = true) :
    isProtocolMessage text = true := by
  have hparse := hsome
  simp only [parseProtocolMessage] at hparse
  cases hsp : splitLines (trimChars text) with
  | nil => rw [hsp] at hparse; simp at hparse
  | cons hd rest =>
    rw [hsp] at hparse
    dsimp only [] at hparse
    cases hh : parseHeader hd with
    | none => rw [hh] at hparse; simp at hparse
    | some res =>
      obtain ⟨T, r2, hshape, hT0, hTall⟩ := parseHeader_some_shape hh
      have hjoin : joinLines (hd :: rest) = trimChars text := by
        rw [← hsp]
        exact joinLines_splitLines _
      have htail : ∃ tail0 : LC, trimChars text = hd ++ tail0 := by
        cases rest with
        | nil => exact ⟨[], by rw [← hjoin]; simp [joinLines]⟩
        | cons b bs => exact ⟨'\n' :: joinLines (b :: bs), by rw [← hjoin]; rfl⟩
      obtain ⟨tail0, htt⟩ := htail
      unfold isProtocolMessage
      rw [htt, hshape]
      rw [show (("[PROTOCOL:".toList ++ (T ++ (']' :: (" from ".toList ++ r2)))) ++ tail0 : LC)
        = "[PROTOCOL:".toList ++ (T ++ (']' :: ((" from ".toList ++ r2) ++ tail0))) by simp]
      rw [stripPre_pre]
      simp only [dropWhile_app_neg hTall (by decide : isHeadChar ']' = false),
        takeWhile_app_neg hTall (by decide : isHeadChar ']' = false)]
      simp [isEmpty_false_of_ne_nil hT0]

/-- Witness for C3 (amended): a concrete well-formed block is non-null
under decode, so the pre-filter accepts it, via
`c3_parse_nonnull_implies_isMessage`. -/
theorem c3_prefilter_witness :
    (parseProtocolMessage "[PROTOCOL:HEARTBEAT] from a at t\nStatus: busy".toList).isSome = true
    ∧ isProtocolMessage "[PROTOCOL:HEARTBEAT] from a at t\nStatus: busy".toList = true :=
  ⟨by decide,
    c3_parse_nonnull_implies_isMessage
      "[PROTOCOL:HEARTBEAT] from a at t\nStatus: busy".toList (by decide)⟩

/-! ## Claim C10: unknown type tokens fall through to a base message -/

/-- Claim C10: when the first trimmed line matches the header shape with
a type token `T` of upper-case letters and underscores whose lower-casing
is none of the five known type tags, `parseProtocolMessage` returns a
non-null base message carrying only the lower-cased type, sender,
timestamp and seq — it does not return null. -/
theorem c10_unknown_type_base {text h : LC} {body : List LC} {T f ts : LC}
    {sq : Option Nat}
    (hsplit : splitLines (trimChars text) = h :: body)
    (hhead : parseHeader h = some (T, f, ts, sq))
    (h1 : T.map Char.toLower ≠ "context_compaction".toList)
    (h2 : T.map Char.toLower ≠ "status_update".toList)
    (h3 : T.map Char.toLower ≠ "task_handoff".toList)
    (h4 : T.map Char.toLower ≠ "error_notice".toList)
    (h5 : T.map Char.toLower ≠ "heartbeat".toList) :
    parseProtocolMessage text = some (.base (T.map Char.toLower) f ts sq) := by
  simp only [parseProtocolMessage, hsplit, hhead,
    if_neg h1, if_neg h2, if_neg h3, if_neg h4, if_neg h5]

/-- Witness for C10: `[PROTOCOL:PING]`, an unknown type token, parses to
a base message with type `"ping"`, via `c10_unknown_type_base`. -/
theorem c10_unknown_type_base_witness :
    parseHeader "[PROTOCOL:PING] from a at t seq=7".toList
      = some ("PING".toList, "a".toList, "t".toList, some 7)
    ∧ parseProtocolMessage "[PROTOCOL:PING] from a at t seq=7".toList
      = some (.base "ping".toList "a".toList "t".toList (some 7)) :=
  ⟨by decide,
    c10_unknown_type_base
      (show splitLines (trimChars "[PROTOCOL:PING] from a at t seq=7".toList)
        = "[PROTOCOL:PING] from a at t seq=7".toList :: [] by decide)
      (show parseHeader "[PROTOCOL:PING] from a at t seq=7".toList
        = some ("PING".toList, "a".toList, "t".toList, some 7) by decide)
      (by decide) (by decide) (by decide) (by decide) (by decide)⟩

/-! ## Claim C6: transient suppression -/

/-- Claim C6: a polling iteration whose capture contains a composing
marker (`Wrangling` or `Thinking`) never yields the Done transition,
whether or not the capture differs from the previous sample — the step
re-arms with the new capture as `lastContent`. -/
theorem c6_transient_suppression (initial last cur : LC)
    (h : hasComposingMarker cur = true) :
    pollStep initial last cur = .again cur := by
  unfold pollStep
  by_cases hc : cur = last
  · rw [if_neg (by simp [hc])]
  · rw [if_pos hc, if_pos h]

/-- Witness for C6: a capture containing `Thinking` that differs from the
previous sample still re-arms, via `c6_transient_suppression`. -/
theorem c6_transient_suppression_witness :
    hasComposingMarker "| Thinking hard".toList = true
    ∧ "| Thinking hard".toList ≠ "old screen".toList
    ∧ pollStep "base".toList "old screen".toList "| Thinking hard".toList
      = .again "| Thinking hard".toList :=
  ⟨by decide, by decide,
    c6_transient_suppression "base".toList "old screen".toList
      "| Thinking hard".toList (by decide)⟩

/-! ## Claim C7: diff extraction -/

theorem dropWhile_app_ne_nil {p : Char → Bool} {c : Char} (x : LC)
    (hc : p c = false) : (x ++ [c]).dropWhile p ≠ [] := by
  induction x with
  | nil => simp [List.dropWhile_cons, hc]
  | cons d xs ih =>
    by_cases hd : p d
    · simpa [List.dropWhile_cons, hd] using ih
    · simp [List.dropWhile_cons, hd]

theorem blank_not_gt {l : LC} (h : (trimChars l).isEmpty = true) :
    listStartsWith ">".toList l = false := by
  cases l with
  | nil => rfl
  | cons c rest =>
    by_cases hc : isWsChar c = true
    · have hne : ('>' : Char) ≠ c := by
        intro hcon
        rw [← hcon] at hc
        simp [isWsChar] at hc
      simp [listStartsWith, stripPre, hne]
    · exfalso
      have hd : (c :: rest).dropWhile isWsChar = c :: rest :=
        dropWhile_cons_neg (by simpa using hc)
      unfold trimChars at h
      rw [hd] at h
      have hrev : (c :: rest).reverse = rest.reverse ++ [c] := by simp
      rw [hrev] at h
      have := dropWhile_app_ne_nil rest.reverse (by simpa using hc)
      rw [List.isEmpty_iff] at h
      exact this (by simpa using congrArg List.reverse h)

theorem keepResponse_true (ls : List LC) :
    keepResponse true ls = ls.filter (fun l => !listStartsWith ">".toList l) := by
  induction ls with
  | nil => rfl
  | cons l rest ih =>
    unfold keepResponse
    by_cases hgt : listStartsWith ">".toList l = true
    · have hgt' : listStartsWith ['>'] l = true := hgt
      simp [hgt', ih, List.filter_cons]
    · have hgt' : listStartsWith ['>'] l = false := by simpa using hgt
      simp [hgt', ih, List.filter_cons]

theorem keepResponse_false (ls : List LC) :
    keepResponse false ls
      = (ls.filter (fun l => !listStartsWith ">".toList l)).dropWhile
          (fun l => (trimChars l).isEmpty) := by
  induction ls with
  | nil => rfl
  | cons l rest ih =>
    unfold keepResponse
    by_cases hb : (trimChars l).isEmpty = true
    · have hgt' : listStartsWith ['>'] l = false := blank_not_gt hb
      simp [hb, hgt', ih, List.filter_cons, List.dropWhile_cons]
    · by_cases hgt : listStartsWith ">".toList l = true
      · have hgt' : listStartsWith ['>'] l = true := hgt
        simp [hb, hgt', ih, List.filter_cons]
      · have hgt' : listStartsWith ['>'] l = false := by simpa using hgt
        simp [hb, hgt', List.filter_cons, List.dropWhile_cons, keepResponse_true]

/-- Claim C7: `extractNewContent` computes exactly the spec's diff
extraction — the later capture's lines absent from the baseline line set,
in order, with prompt-echo lines dropped and leading blanks removed,
joined and trimmed, null when nothing remains — and on the spec's example
(baseline `"> ", "foo"`; later `"> ", "foo", "bar", "baz"`) the extracted
content is `"bar\nbaz"`. -/
theorem c7_extract_diff :
    (∀ before after : LC,
      extractNewContent before after = specExtractNewContent before after)
    ∧ extractNewContent "> \nfoo".toList "> \nfoo\nbar\nbaz".toList
      = some "bar\nbaz".toList := by
  constructor
  · intro before after
    unfold extractNewContent specExtractNewContent
    dsimp only []
    rw [keepResponse_false]
  · decide

/-! ## Claim C4: timeout diagnostics -/

/-- Claim C4 as stated is false: with `timeout = 1234` ms against a
session whose capture never changes, `sendAndWait` reports the timeout
failure, but the failure message does not contain the configured timeout
value `1234` — it names only the target. -/
theorem c4_timeout_counterexample :
    (sendAndWait ⟨fun _ => true, fun _ => [], true, []⟩ "claude-2".toList 1234 100).1
      = .error "Timeout waiting for response from claude-2".toList
    ∧ containsSeq "1234".toList
        "Timeout waiting for response from claude-2".toList = false := by
  decide

/-- Claim C4 (amended): whenever `sendAndWait` fails by timeout (the
session exists, transmit succeeds, and the polling loop produces no
response within the deadline), the reported failure is exactly
`Timeout waiting for response from <target>`: it carries the target
session identifier, and is independent of the configured timeout value,
which it does not carry. -/
theorem c4_timeout_names_target (env : Env) (target : LC) (timeout pollInterval : Nat)
    (hex : env.hasSession target = true) (hsend : env.sendOk = true)
    (hpoll : (pollLoop env target (env.capture 0) (env.capture 0) 1
        (numPolls timeout pollInterval)).1 = none) :
    (sendAndWait env target timeout pollInterval).1 = .error (timeoutMsg target)
    ∧ containsSeq target (timeoutMsg target) = true := by
  constructor
  · unfold sendAndWait
    rw [if_neg (by simp [hex]), if_neg (by simp [hsend])]
    cases hp : pollLoop env target (env.capture 0) (env.capture 0) 1
        (numPolls timeout pollInterval) with
    | mk res tr =>
      have hres : res = none := by
        rw [hp] at hpoll
        exact hpoll
      subst hres
      rfl
  · have := containsSeq_app_self "Timeout waiting for response from ".toList target []
    simpa using this

/-- Witness for C4 (amended): a concrete environment that times out, via
`c4_timeout_names_target`. -/
theorem c4_timeout_names_target_witness :
    (⟨fun _ => true, fun _ => [], true, []⟩ : Env).hasSession "x".toList = true
    ∧ ((sendAndWait ⟨fun _ => true, fun _ => [], true, []⟩ "x".toList 3 1).1
        = .error (timeoutMsg "x".toList)
      ∧ containsSeq "x".toList (timeoutMsg "x".toList) = true) :=
  ⟨rfl, c4_timeout_names_target ⟨fun _ => true, fun _ => [], true, []⟩
    "x".toList 3 1 rfl rfl (by decide)⟩

/-! ## Claim C8: NotFound short-circuit -/

/-- Claim C8: when the session-existence check fails, `sendAndWait`
fails immediately with the NotFound error naming the target; its external
trace is exactly the one `has-session` query — no capture and no
transmit primitive is ever invoked. -/
theorem c8_notfound_shortcircuit (env : Env) (target : LC) (timeout pollInterval : Nat)
    (hex : env.hasSession target = false) :
    sendAndWait env target timeout pollInterval
      = (.error (notFoundMsg target), [.hasSession target])
    ∧ containsSeq target (notFoundMsg target) = true := by
  constructor
  · unfold sendAndWait
    rw [if_pos hex]
  · have := containsSeq_app_self "Session \x27".toList target "\x27 not found".toList
    simpa [notFoundMsg] using this

/-- Witness for C8: a concrete directory without the target, via
`c8_notfound_shortcircuit`. -/
theorem c8_notfound_shortcircuit_witness :
    (⟨fun _ => false, fun _ => [], true, []⟩ : Env).hasSession "ghost".toList = false
    ∧ (sendAndWait ⟨fun _ => false, fun _ => [], true, []⟩ "ghost".toList 5 1
        = (.error (notFoundMsg "ghost".toList), [.hasSession "ghost".toList])
      ∧ containsSeq "ghost".toList (notFoundMsg "ghost".toList) = true) :=
  ⟨rfl, c8_notfound_shortcircuit ⟨fun _ => false, fun _ => [], true, []⟩
    "ghost".toList 5 1 rfl⟩

/-! ## Claim C9: sequence counter -/

theorem seqTrace_shift : ∀ (k s : Nat),
    seqTrace s k = (List.range k).map (fun i => s + i + 1)
  | 0, _ => rfl
  | n + 1, s => by
    rw [show seqTrace s (n + 1) = (s + 1) :: seqTrace (s + 1) n from rfl,
      seqTrace_shift n (s + 1), List.range_succ_eq_map]
    simp only [List.map_cons, List.map_map]
    refine List.cons_eq_cons.mpr ⟨by omega, ?_⟩
    apply List.map_congr_left
    intro a _
    simp [Function.comp]
    omega

/-- Claim C9: the sequence counter starts at 0 at construction; the seq
values attached to `k` successive protocol sends from one instance are
`1, 2, …, k` — a strictly increasing sequence of non-negative integers,
never reset. -/
theorem c9_sequence_counter :
    initialSeqCounter = 0
    ∧ (∀ k, seqTrace initialSeqCounter k = (List.range k).map (fun i => i + 1))
    ∧ (∀ k, List.Pairwise (· < ·) (seqTrace initialSeqCounter k)) := by
  refine ⟨rfl, fun k => ?_, fun k => ?_⟩
  · rw [show initialSeqCounter = 0 from rfl, seqTrace_shift k 0]
    apply List.map_congr_left
    intro a _
    omega
  · rw [show initialSeqCounter = 0 from rfl, seqTrace_shift k 0]
    refine List.Pairwise.map _ ?_ (List.pairwise_lt_range k)
    intro a b hab
    omega

/-! ## Claim C5: multi-extraction -/

theorem not_ws_of_digit {c : Char} (h : isDigitChar c = true) : isWsChar c = false := by
  unfold isDigitChar at h
  unfold isWsChar
  simp only [Bool.and_eq_true, decide_eq_true_eq] at h
  simp only [Bool.or_eq_false_iff, decide_eq_false_iff_not]
  omega

theorem parseHeader_last_not_ws {hd : LC} {res : LC × LC × LC × Option Nat}
    (h : parseHeader hd = some res) :
    ∀ c, hd.getLast? = some c → isWsChar c = false := by
  unfold parseHeader at h
  cases hs1 : stripPre "[PROTOCOL:".toList hd with
  | none => rw [hs1] at h; simp at h
  | some r1 =>
    rw [hs1] at h
    dsimp only [] at h
    by_cases hT : (r1.takeWhile isHeadChar).isEmpty = true
    · rw [if_pos hT] at h; simp at h
    · rw [if_neg hT] at h
      cases hs2 : stripPre "] from ".toList (r1.dropWhile isHeadChar) with
      | none => rw [hs2] at h; simp at h
      | some r2 =>
        rw [hs2] at h
        dsimp only [] at h
        by_cases hF : (r2.takeWhile (fun c => !isWsChar c)).isEmpty = true
        · rw [if_pos hF] at h; simp at h
        · rw [if_neg hF] at h
          cases hs3 : stripPre " at ".toList (r2.dropWhile (fun c => !isWsChar c)) with
          | none => rw [hs3] at h; simp at h
          | some r3 =>
            rw [hs3] at h
            dsimp only [] at h
            by_cases hTs : (r3.takeWhile (fun c => !isWsChar c)).isEmpty = true
            · rw [if_pos hTs] at h; simp at h
            · rw [if_neg hTs] at h
              have e1 : hd = "[PROTOCOL:".toList ++ r1 := stripPre_eq_some hs1
              have e2 : r1.dropWhile isHeadChar = "] from ".toList ++ r2 :=
                stripPre_eq_some hs2
              have e3 : r2.dropWhile (fun c => !isWsChar c) = " at ".toList ++ r3 :=
                stripPre_eq_some hs3
              have hr1ne : r1 ≠ [] := by
                intro hcon
                rw [hcon] at e2
                simp [List.dropWhile] at e2
              have hr2ne : r2 ≠ [] := by
                intro hcon
                rw [hcon] at hF
                simp at hF
              have hr3ne : r3 ≠ [] := by
                intro hcon
                rw [hcon] at hTs
                simp at hTs
              have er1 : r1 = r1.takeWhile isHeadChar ++ r1.dropWhile isHeadChar :=
                (List.takeWhile_append_dropWhile isHeadChar r1).symm
              have er2 : r2 = r2.takeWhile (fun c => !isWsChar c)
                  ++ r2.dropWhile (fun c => !isWsChar c) :=
                (List.takeWhile_append_dropWhile (fun c => !isWsChar c) r2).symm
              have hstep1 : hd.getLast? = r1.getLast? := by
                rw [e1]
                exact getLast?_append_right hr1ne
              have hstep2 : r1.getLast? = r2.getLast? := by
                conv_lhs => rw [er1]
                rw [getLast?_append_right (by rw [e2]; simp), e2]
                exact getLast?_append_right hr2ne
              have hstep3 : r2.getLast? = r3.getLast? := by
                conv_lhs => rw [er2]
                rw [getLast?_append_right (by rw [e3]; simp), e3]
                exact getLast?_append_right hr3ne
              have hlast : hd.getLast? = r3.getLast? :=
                (hstep1.trans hstep2).trans hstep3
              by_cases hr4 : (r3.dropWhile (fun c => !isWsChar c)).isEmpty = true
              · have hdrop : r3.dropWhile (fun c => !isWsChar c) = [] :=
                  List.isEmpty_iff.mp hr4
                have hr3eq : r3 = r3.takeWhile (fun c => !isWsChar c) := by
                  conv_lhs => rw [← List.takeWhile_append_dropWhile
                    (fun c => !isWsChar c) r3]
                  rw [hdrop, List.append_nil]
                intro c hc
                rw [hlast] at hc
                have hcmem : c ∈ r3 := List.mem_of_mem_getLast? (Option.mem_def.mpr hc)
                rw [hr3eq] at hcmem
                have := List.mem_takeWhile_imp hcmem
                simpa using this
              · rw [if_neg hr4] at h
                cases hs4 : stripPre " seq=".toList
                    (r3.dropWhile (fun c => !isWsChar c)) with
                | none => rw [hs4] at h; simp at h
                | some ds =>
                  rw [hs4] at h
                  dsimp only [] at h
                  by_cases hds : ds.isEmpty = true
                  · rw [if_pos hds] at h; simp at h
                  · rw [if_neg hds] at h
                    by_cases hall : ds.all isDigitChar = true
                    · have e5 : r3.dropWhile (fun c => !isWsChar c)
                          = " seq=".toList ++ ds := stripPre_eq_some hs4
                      have hdsne : ds ≠ [] := by
                        intro hcon
                        rw [hcon] at hds
                        simp at hds
                      intro c hc
                      rw [hlast] at hc
                      have hr3eq : r3 = r3.takeWhile (fun c => !isWsChar c)
                          ++ (" seq=".toList ++ ds) := by
                        conv_lhs => rw [← List.takeWhile_append_dropWhile
                          (fun c => !isWsChar c) r3]
                        rw [e5]
                      rw [hr3eq,
                        getLast?_append_right
                          (by simp : (" seq=".toList ++ ds : LC) ≠ []),
                        getLast?_append_right hdsne] at hc
                      have hcmem : c ∈ ds :=
                        List.mem_of_mem_getLast? (Option.mem_def.mpr hc)
                      exact not_ws_of_digit (List.all_eq_true.mp hall c hcmem)
                    · rw [if_neg hall] at h; simp at h

theorem joinLines_concat : ∀ (ls : List LC) (l : LC), ls ≠ [] →
    joinLines (ls ++ [l]) = joinLines ls ++ '\n' :: l
  | [], _, h => absurd rfl h
  | [a], l, _ => rfl
  | a :: b :: bs, l, _ => by
    rw [show ((a :: b :: bs) ++ [l] : List LC) = a :: ((b :: bs) ++ [l]) from rfl]
    rw [show joinLines (a :: ((b :: bs) ++ [l]))
      = a ++ '\n' :: joinLines ((b :: bs) ++ [l]) by
        cases bs <;> rfl]
    rw [joinLines_concat (b :: bs) l (by simp)]
    rw [show joinLines (a :: b :: bs) = a ++ '\n' :: joinLines (b :: bs) from rfl]
    simp

theorem dropWhile_app_stop {p : Char → Bool} {a : LC} (b : LC)
    (h : ∃ c ∈ a, p c = false) :
    (a ++ b).dropWhile p = a.dropWhile p ++ b := by
  induction a with
  | nil => simp at h
  | cons c rest ih =>
    by_cases hc : p c = true
    · have hrest : ∃ x ∈ rest, p x = false := by
        rcases h with ⟨x, hx, hpx⟩
        rcases List.mem_cons.mp hx with rfl | hx'
        · rw [hc] at hpx; cases hpx
        · exact ⟨x, hx', hpx⟩
      simp [List.dropWhile_cons, hc, ih hrest]
    · simp [List.dropWhile_cons, hc]

theorem exists_non_ws_of_nonblank {l : LC} (h : (trimChars l).isEmpty = false) :
    ∃ c ∈ l, isWsChar c = false := by
  by_contra hcon
  push_neg at hcon
  have hall : ∀ c ∈ l, isWsChar c = true := by
    intro c hc
    have := hcon c hc
    cases hw : isWsChar c with
    | false => exact absurd hw this
    | true => rfl
  have h1 : l.dropWhile isWsChar = [] := dropWhile_all hall
  have : trimChars l = [] := by
    unfold trimChars
    rw [h1]
    simp [List.dropWhile]
  rw [this] at h
  simp at h

theorem trim_join_rtrim {h2 : LC} (mid : List LC) {lastl : LC}
    (hh : h2.head? = some '[')
    (hlb : (trimChars lastl).isEmpty = false) :
    trimChars (joinLines (h2 :: (mid ++ [lastl])))
      = joinLines (h2 :: (mid ++ [(lastl.reverse.dropWhile isWsChar).reverse])) := by
  have hjc : joinLines ((h2 :: mid) ++ [lastl])
      = joinLines (h2 :: mid) ++ '\n' :: lastl :=
    joinLines_concat (h2 :: mid) lastl (by simp)
  have hjc2 : joinLines ((h2 :: mid) ++ [(lastl.reverse.dropWhile isWsChar).reverse])
      = joinLines (h2 :: mid) ++ '\n' :: (lastl.reverse.dropWhile isWsChar).reverse :=
    joinLines_concat (h2 :: mid) _ (by simp)
  have hex : ∃ c ∈ lastl.reverse, isWsChar c = false := by
    obtain ⟨c, hc, hw⟩ := exists_non_ws_of_nonblank hlb
    exact ⟨c, List.mem_reverse.mpr hc, hw⟩
  have hdl : (joinLines (h2 :: (mid ++ [lastl]))).dropWhile isWsChar
      = joinLines (h2 :: (mid ++ [lastl])) := by
    cases hj : joinLines (h2 :: (mid ++ [lastl])) with
    | nil => rfl
    | cons c0 r0 =>
      have hh2ne : h2 ≠ [] := by
        intro hcon
        rw [hcon] at hh
        simp at hh
      have hc0 : c0 = '[' := by
        have hht := head?_joinLines_cons (mid ++ [lastl]) hh2ne
        rw [hj, hh] at hht
        simpa using hht
      subst hc0
      exact dropWhile_cons_neg (by decide)
  unfold trimChars
  rw [hdl]
  rw [show (h2 :: (mid ++ [lastl]) : List LC) = (h2 :: mid) ++ [lastl] from rfl, hjc]
  rw [List.reverse_append]
  rw [show (('\n' :: lastl : LC)).reverse = lastl.reverse ++ ['\n'] by simp]
  rw [show ((lastl.reverse ++ ['\n']) ++ (joinLines (h2 :: mid)).reverse : LC)
    = lastl.reverse ++ ('\n' :: (joinLines (h2 :: mid)).reverse) by simp]
  rw [dropWhile_app_stop _ hex]
  rw [List.reverse_append]
  rw [show (('\n' :: (joinLines (h2 :: mid)).reverse : LC)).reverse
    = joinLines (h2 :: mid) ++ ['\n'] by simp]
  rw [show (h2 :: (mid ++ [(lastl.reverse.dropWhile isWsChar).reverse]) : List LC)
    = (h2 :: mid) ++ [(lastl.reverse.dropWhile isWsChar).reverse] from rfl, hjc2]
  simp

theorem parse_cases {text : LC} {hd : LC} {body' : List LC} {T f ts : LC}
    {sq : Option Nat}
    (hsplit : splitLines (trimChars text) = hd :: body')
    (hhead : parseHeader hd = some (T, f, ts, sq)) :
    ∃ m, parseProtocolMessage text = some m ∧ msgType m = T.map Char.toLower := by
  simp only [parseProtocolMessage, hsplit, hhead]
  by_cases h1 : List.map Char.toLower T = "context_compaction".toList
  · rw [if_pos h1]
    exact ⟨_, rfl, h1.symm⟩
  · rw [if_neg h1]
    by_cases h2 : List.map Char.toLower T = "status_update".toList
    · rw [if_pos h2]
      exact ⟨_, rfl, h2.symm⟩
    · rw [if_neg h2]
      by_cases h3 : List.map Char.toLower T = "task_handoff".toList
      · rw [if_pos h3]
        exact ⟨_, rfl, h3.symm⟩
      · rw [if_neg h3]
        by_cases h4 : List.map Char.toLower T = "error_notice".toList
        · rw [if_pos h4]
          exact ⟨_, rfl, h4.symm⟩
        · rw [if_neg h4]
          by_cases h5 : List.map Char.toLower T = "heartbeat".toList
          · rw [if_pos h5]
            exact ⟨_, rfl, h5.symm⟩
          · rw [if_neg h5]
            exact ⟨_, rfl, rfl⟩

theorem parse_block_type {h2 : LC} (body : List LC) {T f ts : LC} {sq : Option Nat}
    (hhead : parseHeader h2 = some (T, f, ts, sq))
    (hnl : ∀ c ∈ h2, c ≠ '\n')
    (hbnl : ∀ l ∈ body, ∀ c ∈ l, c ≠ '\n')
    (hbne : ∀ l ∈ body, (trimChars l).isEmpty = false) :
    ∃ m, parseProtocolMessage (joinLines (h2 :: body)) = some m
      ∧ msgType m = T.map Char.toLower := by
  obtain ⟨Tx, r2x, hshape, -, -⟩ := parseHeader_some_shape hhead
  have hh2head : h2.head? = some '[' := by rw [hshape]; rfl
  rcases List.eq_nil_or_concat body with rfl | ⟨mid, lastl, hbody⟩
  · have hje : joinLines [h2] = h2 := rfl
    have htr : trimChars (joinLines [h2]) = joinLines [h2] := by
      rw [hje]
      refine trim_eq_self ?_ (parseHeader_last_not_ws hhead)
      intro c hc
      rw [hh2head] at hc
      have : c = '[' := (Option.some.inj hc).symm
      subst this
      decide
    have hsplit : splitLines (trimChars (joinLines [h2])) = [h2] := by
      rw [htr, hje]
      exact splitLines_no_nl hnl
    exact parse_cases hsplit hhead
  · rw [show List.concat mid lastl = mid ++ [lastl] from List.concat_eq_append mid lastl] at hbody
    subst hbody
    have hlb : (trimChars lastl).isEmpty = false := hbne lastl (by simp)
    have htr := trim_join_rtrim mid hh2head hlb
    have hsplit : splitLines (trimChars (joinLines (h2 :: (mid ++ [lastl]))))
        = h2 :: (mid ++ [(lastl.reverse.dropWhile isWsChar).reverse]) := by
      rw [htr]
      apply splitLines_join (by simp)
      intro l hl c hc
      rcases List.mem_cons.mp hl with rfl | hl2
      · exact hnl c hc
      · rcases List.mem_append.mp hl2 with hm | hm
        · exact hbnl l (by simp [List.mem_append, hm]) c hc
        · have : l = (lastl.reverse.dropWhile isWsChar).reverse := by simpa using hm
          subst this
          have hcl : c ∈ lastl := by
            have h1 : c ∈ lastl.reverse.dropWhile isWsChar := by
              simpa using hc
            have h2 : c ∈ lastl.reverse :=
              List.Sublist.mem h1 (List.dropWhile_sublist _)
            simpa using h2
          exact hbnl lastl (by simp) c hcl
    exact parse_cases hsplit hhead

theorem listStartsWith_pre (p x : LC) : listStartsWith p (p ++ x) = true := by
  unfold listStartsWith
  rw [stripPre_pre]
  rfl

theorem extractStep_not_header {st : ExtState} {line : LC}
    (h : listStartsWith "[PROTOCOL:".toList line = false)
    (hin : st.inMessage = false) :
    extractStep st line = st := by
  unfold extractStep
  rw [h, hin]
  simp

theorem foldl_extractStep_skip {st : ExtState} : ∀ {lines : List LC},
    (∀ l ∈ lines, listStartsWith "[PROTOCOL:".toList l = false) →
    st.inMessage = false → lines.foldl extractStep st = st
  | [], _, _ => rfl
  | l :: rest, h, hin => by
    rw [List.foldl_cons, extractStep_not_header (h l (by simp)) hin]
    exact foldl_extractStep_skip (fun x hx => h x (List.mem_cons_of_mem _ hx)) hin

theorem extractStep_header {st : ExtState} {line : LC}
    (h : listStartsWith "[PROTOCOL:".toList line = true) :
    extractStep st line =
      { messages :=
          if st.inMessage && !st.current.isEmpty then
            st.messages ++ (parseProtocolMessage (joinLines st.current)).toList
          else st.messages,
        current := [line], inMessage := true } := by
  unfold extractStep
  rw [h]
  simp

theorem extractStep_push {st : ExtState} {line : LC}
    (hh : listStartsWith "[PROTOCOL:".toList line = false)
    (hin : st.inMessage = true)
    (hne : (trimChars line).isEmpty = false)
    (hcs : containsSeq ": ".toList line = true) :
    extractStep st line = { st with current := st.current ++ [line] } := by
  unfold extractStep
  rw [hh, hin, hne, hcs]
  simp

theorem extractStep_blank {st : ExtState} {line : LC}
    (hh : listStartsWith "[PROTOCOL:".toList line = false)
    (hin : st.inMessage = true)
    (hb : (trimChars line).isEmpty = true) :
    extractStep st line =
      { messages := st.messages ++ (parseProtocolMessage (joinLines st.current)).toList,
        current := [], inMessage := false } := by
  unfold extractStep
  rw [hh, hin, hb]
  simp

theorem extractStep_junk {st : ExtState} {line : LC}
    (hh : listStartsWith "[PROTOCOL:".toList line = false)
    (hin : st.inMessage = true)
    (hne : (trimChars line).isEmpty = false)
    (hcs : containsSeq ": ".toList line = false) :
    extractStep st line = st := by
  unfold extractStep
  rw [hh, hin, hne, hcs]
  simp

theorem foldl_extractStep_body : ∀ (body : List LC) {st : ExtState},
    st.inMessage = true →
    (∀ l ∈ body, listStartsWith "[PROTOCOL:".toList l = false
      ∧ (trimChars l).isEmpty = false ∧ containsSeq ": ".toList l = true) →
    body.foldl extractStep st = { st with current := st.current ++ body }
  | [], st, _, _ => by simp
  | l :: rest, st, hin, h => by
    rw [List.foldl_cons,
      extractStep_push (h l (by simp)).1 hin (h l (by simp)).2.1 (h l (by simp)).2.2]
    have hrec : rest.foldl extractStep { st with current := st.current ++ [l] }
        = { st with current := (st.current ++ [l]) ++ rest } :=
      foldl_extractStep_body rest hin fun x hx => h x (List.mem_cons_of_mem _ hx)
    rw [hrec]
    simp [List.append_assoc]

theorem foldl_extractStep_post {h2 : LC} {T2 f2 ts2 : LC} {sq2 : Option Nat}
    (hh2 : parseHeader h2 = some (T2, f2, ts2, sq2))
    (hh2nl : ∀ c ∈ h2, c ≠ '\n') (msgs : List PMsg) :
    ∀ (post : List LC),
      (∀ l ∈ post, listStartsWith "[PROTOCOL:".toList l = false ∧ ∀ c ∈ l, c ≠ '\n') →
      ∀ (ext : List LC),
        (∀ l ∈ ext, (trimChars l).isEmpty = false ∧ ∀ c ∈ l, c ≠ '\n') →
        ∃ fin : ExtState,
          post.foldl extractStep ⟨msgs, h2 :: ext, true⟩ = fin
          ∧ ((fin.inMessage = true
              ∧ ∃ ext', (∀ l ∈ ext', (trimChars l).isEmpty = false ∧ ∀ c ∈ l, c ≠ '\n')
                  ∧ fin.current = h2 :: ext' ∧ fin.messages = msgs)
            ∨ (fin.inMessage = false
              ∧ ∃ m2, fin.messages = msgs ++ [m2]
                  ∧ msgType m2 = T2.map Char.toLower))
  | [], _, ext, hext => ⟨_, rfl, .inl ⟨rfl, ext, hext, rfl, rfl⟩⟩
  | l :: rest, hpost, ext, hext => by
    have hl := hpost l (by simp)
    by_cases hb : (trimChars l).isEmpty = true
    · rw [List.foldl_cons, extractStep_blank hl.1 rfl hb]
      obtain ⟨m2, hm2, hty⟩ := parse_block_type ext hh2 hh2nl
        (fun x hx => (hext x hx).2) (fun x hx => (hext x hx).1)
      have hskip : rest.foldl extractStep
          ⟨msgs ++ (parseProtocolMessage (joinLines (h2 :: ext))).toList, [], false⟩
          = ⟨msgs ++ (parseProtocolMessage (joinLines (h2 :: ext))).toList, [], false⟩ :=
        foldl_extractStep_skip
          (fun x hx => (hpost x (List.mem_cons_of_mem _ hx)).1) rfl
      rw [hskip]
      refine ⟨_, rfl, .inr ⟨rfl, m2, ?_, hty⟩⟩
      rw [hm2]
      rfl
    · by_cases hcs : containsSeq ": ".toList l = true
      · rw [List.foldl_cons, extractStep_push hl.1 rfl (by simpa using hb) hcs]
        have hrec := foldl_extractStep_post hh2 hh2nl msgs rest
          (fun x hx => hpost x (List.mem_cons_of_mem _ hx)) (ext ++ [l])
          (by
            intro x hx
            rcases List.mem_append.mp hx with hm | hm
            · exact hext x hm
            · have : x = l := by simpa using hm
              subst this
              exact ⟨by simpa using hb, hl.2⟩)
        obtain ⟨fin, hfin, hres⟩ := hrec
        exact ⟨fin, hfin, hres⟩
      · rw [List.foldl_cons, extractStep_junk hl.1 rfl (by simpa using hb)
          (by simpa using hcs)]
        exact foldl_extractStep_post hh2 hh2nl msgs rest
          (fun x hx => hpost x (List.mem_cons_of_mem _ hx)) ext hext

theorem header_startsWith {hd : LC} {res : LC × LC × LC × Option Nat}
    (h : parseHeader hd = some res) :
    listStartsWith "[PROTOCOL:".toList hd = true := by
  obtain ⟨T, r2, hshape, -, -⟩ := parseHeader_some_shape h
  rw [hshape]
  exact listStartsWith_pre _ _

/-- Claim C5: an input consisting of two valid protocol blocks separated
by a blank line, possibly surrounded by non-protocol text, extracts to
exactly two messages in the textual order of their headers, each carrying
the (lower-cased) type named in its own header line.  Body lines are
non-blank `Key: value` lines; the surrounding text contains no header
lines. -/
theorem c5_multi_extraction (pre : List LC) {h1 : LC} (b1 : List LC) {h2 : LC}
    (b2 post : List LC) {T1 f1 ts1 T2 f2 ts2 : LC} {sq1 sq2 : Option Nat}
    (hh1 : parseHeader h1 = some (T1, f1, ts1, sq1))
    (hh2 : parseHeader h2 = some (T2, f2, ts2, sq2))
    (hnl : ∀ l ∈ pre ++ h1 :: b1 ++ [] :: h2 :: b2 ++ post, ∀ c ∈ l, c ≠ '\n')
    (hpre : ∀ l ∈ pre, listStartsWith "[PROTOCOL:".toList l = false)
    (hpost : ∀ l ∈ post, listStartsWith "[PROTOCOL:".toList l = false)
    (hb1 : ∀ l ∈ b1, listStartsWith "[PROTOCOL:".toList l = false
      ∧ (trimChars l).isEmpty = false ∧ containsSeq ": ".toList l = true)
    (hb2 : ∀ l ∈ b2, listStartsWith "[PROTOCOL:".toList l = false
      ∧ (trimChars l).isEmpty = false ∧ containsSeq ": ".toList l = true) :
    ∃ m1 m2,
      extractProtocolMessages (joinLines (pre ++ h1 :: b1 ++ [] :: h2 :: b2 ++ post))
        = [m1, m2]
      ∧ msgType m1 = T1.map Char.toLower ∧ msgType m2 = T2.map Char.toLower := by
  have hh1nl : ∀ c ∈ h1, c ≠ '\n' := hnl h1 (by simp)
  have hh2nl : ∀ c ∈ h2, c ≠ '\n' := hnl h2 (by simp)
  have hb1nl : ∀ l ∈ b1, ∀ c ∈ l, c ≠ '\n' := fun l hl => hnl l (by simp [hl])
  have hb2nl : ∀ l ∈ b2, ∀ c ∈ l, c ≠ '\n' := fun l hl => hnl l (by simp [hl])
  have hpostnl : ∀ l ∈ post, ∀ c ∈ l, c ≠ '\n' := fun l hl => hnl l (by simp [hl])
  obtain ⟨m1, hm1, hty1⟩ := parse_block_type b1 hh1 hh1nl hb1nl
    (fun l hl => (hb1 l hl).2.1)
  have hstart1 : listStartsWith "[PROTOCOL:".toList h1 = true := header_startsWith hh1
  have hstart2 : listStartsWith "[PROTOCOL:".toList h2 = true := header_startsWith hh2
  have e0 : List.foldl extractStep ⟨[], [], false⟩ pre = ⟨[], [], false⟩ :=
    foldl_extractStep_skip hpre rfl
  have e1 : extractStep ⟨[], [], false⟩ h1 = ⟨[], [h1], true⟩ := by
    rw [extractStep_header hstart1]
    simp
  have e2 : List.foldl extractStep ⟨[], [h1], true⟩ b1 = ⟨[], h1 :: b1, true⟩ :=
    foldl_extractStep_body b1 rfl hb1
  have e3 : extractStep ⟨[], h1 :: b1, true⟩ [] = ⟨[m1], [], false⟩ := by
    rw [extractStep_blank (by decide) rfl (by decide), hm1]
    rfl
  have e4 : extractStep ⟨[m1], [], false⟩ h2 = ⟨[m1], [h2], true⟩ := by
    rw [extractStep_header hstart2]
    simp
  have e5 : List.foldl extractStep ⟨[m1], [h2], true⟩ b2 = ⟨[m1], h2 :: b2, true⟩ :=
    foldl_extractStep_body b2 rfl hb2
  obtain ⟨fin, hfin, hres⟩ := foldl_extractStep_post hh2 hh2nl [m1] post
    (fun l hl => ⟨hpost l hl, hpostnl l hl⟩) b2
    (fun l hl => ⟨(hb2 l hl).2.1, hb2nl l hl⟩)
  have hne : (pre ++ h1 :: b1 ++ [] :: h2 :: b2 ++ post : List LC) ≠ [] := by simp
  have hsplit := splitLines_join hne hnl
  have E1 : List.foldl extractStep ⟨[], [], false⟩ (pre ++ h1 :: b1)
      = ⟨[], h1 :: b1, true⟩ := by
    rw [List.foldl_append, e0, List.foldl_cons, e1, e2]
  have E2 : List.foldl extractStep ⟨[], [], false⟩
      ((pre ++ h1 :: b1) ++ ([] :: h2 :: b2)) = ⟨[m1], h2 :: b2, true⟩ := by
    rw [List.foldl_append, E1, List.foldl_cons, e3, List.foldl_cons, e4, e5]
  have hfold : List.foldl extractStep ⟨[], [], false⟩
      (pre ++ h1 :: b1 ++ [] :: h2 :: b2 ++ post) = fin := by
    rw [List.foldl_append, E2, hfin]
  rcases hres with ⟨hin, ext2, hext2, hcur, hmsgs⟩ | ⟨hin, m2, hmsgs, hty2⟩
  · obtain ⟨m2, hm2, hty2⟩ := parse_block_type ext2 hh2 hh2nl
      (fun x hx => (hext2 x hx).2) (fun x hx => (hext2 x hx).1)
    refine ⟨m1, m2, ?_, hty1, hty2⟩
    unfold extractProtocolMessages
    dsimp only []
    rw [hsplit, hfold, hin, hcur, hmsgs, hm2]
    simp
  · refine ⟨m1, m2, ?_, hty1, hty2⟩
    unfold extractProtocolMessages
    dsimp only []
    rw [hsplit, hfold, hin, hmsgs]
    simp

/-- Witness for C5: a capture with a noise line, a `STATUS_UPDATE` block,
a blank line, a `HEARTBEAT` block and a trailing noise line extracts to
exactly two messages with types `status_update` and `heartbeat`, via
`c5_multi_extraction`. -/
theorem c5_multi_extraction_witness :
    ∃ m1 m2,
      extractProtocolMessages (joinLines (["noise".toList]
        ++ "[PROTOCOL:STATUS_UPDATE] from alice at 1700".toList
        :: ["Status: ready".toList]
        ++ [] :: "[PROTOCOL:HEARTBEAT] from bob at 1701".toList
        :: [] ++ ["tail".toList])) = [m1, m2]
      ∧ msgType m1 = "STATUS_UPDATE".toList.map Char.toLower
      ∧ msgType m2 = "HEARTBEAT".toList.map Char.toLower :=
  c5_multi_extraction ["noise".toList] ["Status: ready".toList] [] ["tail".toList]
    (show parseHeader "[PROTOCOL:STATUS_UPDATE] from alice at 1700".toList
        = some ("STATUS_UPDATE".toList, "alice".toList, "1700".toList, none) by decide)
    (show parseHeader "[PROTOCOL:HEARTBEAT] from bob at 1701".toList
        = some ("HEARTBEAT".toList, "bob".toList, "1701".toList, none) by decide)
    (by decide) (by decide) (by decide) (by decide) (by decide)
